import Mathlib

/-!
Shallow embedding of the alignment-and-comparison core of the repository:
`modern_indicators/tools/plot_hit_or_miss.py` (parse_tssb_csv, align_data,
extract_computed_values, the per-indicator statistics in main) and
`modern_indicators/plot_cmma.py` (create_comparison_plot), together with
proofs settling the frozen claims about them.

NumPy/Python doubles are idealised as `PyFloat`: an exact rational, one of
the two infinities, or NaN.  The properties under study depend only on
NaN-ness, finiteness, signs, exact zero tests and the IEEE propagation
rules of arithmetic, which this idealisation preserves.
-/

/-- Embedding of a Python/NumPy double. -/
inductive PyFloat where
  | fin (q : ℚ)
  | pinf
  | ninf
  | nan
deriving DecidableEq

namespace PyFloat

/-- Test mirroring `np.isnan`. -/
def isNan : PyFloat → Bool
  | nan => true
  | _ => false

/-- Test mirroring `np.isfinite` (false on NaN and on both infinities). -/
def isFinite : PyFloat → Bool
  | fin _ => true
  | _ => false

/-- IEEE negation. -/
def neg : PyFloat → PyFloat
  | fin q => fin (-q)
  | pinf => ninf
  | ninf => pinf
  | nan => nan

/-- IEEE addition (NaN propagates, `inf + (-inf) = NaN`). -/
def add : PyFloat → PyFloat → PyFloat
  | fin a, fin b => fin (a + b)
  | fin _, pinf => pinf
  | fin _, ninf => ninf
  | fin _, nan => nan
  | pinf, fin _ => pinf
  | pinf, pinf => pinf
  | pinf, ninf => nan
  | pinf, nan => nan
  | ninf, fin _ => ninf
  | ninf, pinf => nan
  | ninf, ninf => ninf
  | ninf, nan => nan
  | nan, _ => nan

/-- IEEE subtraction, as addition of the negation. -/
def sub (a b : PyFloat) : PyFloat := a.add b.neg

/-- IEEE / NumPy division: `x/0` is a signed infinity for `x ≠ 0`, `0/0`
is NaN, `x/inf` is `0`, `inf/inf` is NaN, NaN propagates.  (The finite
divisor `0` is NumPy's positive zero.) -/
def div : PyFloat → PyFloat → PyFloat
  | fin a, fin b =>
      if b = 0 then (if a = 0 then nan else if 0 < a then pinf else ninf)
      else fin (a / b)
  | fin _, pinf => fin 0
  | fin _, ninf => fin 0
  | fin _, nan => nan
  | pinf, fin b => if b < 0 then ninf else pinf
  | ninf, fin b => if b < 0 then pinf else ninf
  | pinf, pinf => nan
  | pinf, ninf => nan
  | pinf, nan => nan
  | ninf, pinf => nan
  | ninf, ninf => nan
  | ninf, nan => nan
  | nan, _ => nan

/-- Absolute value, mirroring `np.abs`. -/
def pabs : PyFloat → PyFloat
  | fin q => fin |q|
  | pinf => pinf
  | ninf => pinf
  | nan => nan

/-- IEEE strict comparison: every comparison with NaN is false. -/
def blt : PyFloat → PyFloat → Bool
  | fin a, fin b => decide (a < b)
  | fin _, pinf => true
  | fin _, ninf => false
  | fin _, nan => false
  | pinf, _ => false
  | ninf, fin _ => true
  | ninf, pinf => true
  | ninf, ninf => false
  | ninf, nan => false
  | nan, _ => false

/-- Multiplication by the positive literal `100` (used by `... * 100`). -/
def mul100 : PyFloat → PyFloat
  | fin q => fin (q * 100)
  | pinf => pinf
  | ninf => ninf
  | nan => nan

/-- Rational carried by a finite value (junk `0` otherwise). -/
def toQ : PyFloat → ℚ
  | fin q => q
  | _ => 0

end PyFloat

/-- Sum of an array, the reduction underlying the NumPy means. -/
def pySum (l : List PyFloat) : PyFloat := l.foldl PyFloat.add (.fin 0)

/-- `np.mean`: sum divided by length; NaN (with a warning) on an empty array. -/
def pyMean (l : List PyFloat) : PyFloat :=
  if l.isEmpty then .nan else (pySum l).div (.fin l.length)

/-- `np.nanmean`: the mean of the non-NaN entries; NaN if all entries are NaN. -/
def nanmean (l : List PyFloat) : PyFloat := pyMean (l.filter (fun x => !x.isNan))

/-- Binary maximum with IEEE comparison, as used by the `np.nanmax` reduction. -/
def pymax2 (a b : PyFloat) : PyFloat := if a.blt b then b else a

/-- `np.nanmax`: maximum of the non-NaN entries; NaN if all entries are NaN. -/
def nanmax (l : List PyFloat) : PyFloat :=
  match l.filter (fun x => !x.isNan) with
  | [] => .nan
  | x :: xs => xs.foldl pymax2 x

/-- Binary minimum with IEEE comparison, as used by the `np.min` reduction. -/
def pymin2 (a b : PyFloat) : PyFloat := if b.blt a then b else a

/-! ## parse_tssb_csv (plot_hit_or_miss.py, lines 43-91)

The Python builtins `int(...)` and `float(...)` applied to a raw token are
external to this repository; they enter the embedding as the parameters
`intOf` and `floatOf` (`none` models a conversion that raises). -/

/-- Message of the `ValueError` raised by `max()` on an empty sequence. -/
def emptyMaxMsg : String := "max arg is an empty sequence"

/-- Embedding of `header.index(name) if name in header else None` (line 50-52):
the position of the first occurrence, or `none` when absent. -/
def idxOf (header : List String) (name : String) : Option Nat :=
  if name ∈ header then some (header.indexOf name) else none

/-- Python truthiness of a stored column index (`if tgt_115_idx:`):
both `None` and `0` are falsy. -/
def truthy (o : Option Nat) : Bool := o.getD 0 != 0

/-- Embedding of `filter(None, [tgt_115_idx, tgt_315_idx, tgt_555_idx])`:
drop the falsy entries (`None` and `0`). -/
def truthyIdxs (a b c : Option Nat) : List Nat :=
  ([a, b, c].filterMap id).filter (fun n => n != 0)

/-- Python `max` over a sequence: `ValueError` on an empty one. -/
def pyMaxNat : List Nat → Except String Nat
  | [] => .error emptyMaxMsg
  | x :: xs => .ok (xs.foldl max x)

/-- Result columns of `parse_tssb_csv`. -/
structure CsvData where
  dates : List Int
  times : List Int
  tgt115 : List PyFloat
  tgt315 : List PyFloat
  tgt555 : List PyFloat
deriving DecidableEq

/-- Bare `int(...)` conversion: raises (no surrounding try) when it fails. -/
def intCell (intOf : String → Option Int) (s : String) : Except String Int :=
  match intOf s with
  | some n => .ok n
  | none => .error "invalid literal for int"

/-- Body of the row loop of `parse_tssb_csv` (lines 61-83): guard on
`len(parts) > max(filter(None, ...))`, then append date, time, and — for each
truthy column index — the float value, where a failed `float(...)` is caught
by the bare `except` and appends NaN instead. -/
def processRow (intOf : String → Option Int) (floatOf : String → Option PyFloat)
    (i115 i315 i555 : Option Nat) (acc : CsvData) (parts : List String) :
    Except String CsvData := do
  let m ← pyMaxNat (truthyIdxs i115 i315 i555)
  if m < parts.length then
    let d ← intCell intOf (parts.getD 0 "")
    let t ← intCell intOf (parts.getD 1 "")
    let t115 := if truthy i115 then
        acc.tgt115 ++ [(floatOf (parts.getD (i115.getD 0) "")).getD .nan] else acc.tgt115
    let t315 := if truthy i315 then
        acc.tgt315 ++ [(floatOf (parts.getD (i315.getD 0) "")).getD .nan] else acc.tgt315
    let t555 := if truthy i555 then
        acc.tgt555 ++ [(floatOf (parts.getD (i555.getD 0) "")).getD .nan] else acc.tgt555
    pure { dates := acc.dates ++ [d], times := acc.times ++ [t],
           tgt115 := t115, tgt315 := t315, tgt555 := t555 }
  else
    pure acc

/-- Embedding of `parse_tssb_csv` (lines 43-91).  `header` is the
whitespace-split first line, `rows` the whitespace-split data lines. -/
def parse_tssb_csv (intOf : String → Option Int) (floatOf : String → Option PyFloat)
    (header : List String) (rows : List (List String)) : Except String CsvData :=
  let i115 := idxOf header "TGT_115"
  let i315 := idxOf header "TGT_315"
  let i555 := idxOf header "TGT_555"
  rows.foldlM (processRow intOf floatOf i115 i315 i555) ⟨[], [], [], [], []⟩

/-! ## align_data (plot_hit_or_miss.py, lines 129-152) -/

/-- Composite (date, time) key. -/
abbrev BarKey := Int × Int

/-- Lookup in the association-list model of a Python dict in which a new
binding is consed on the front: the first hit is the most recent binding. -/
def dictLookup {α β : Type} [DecidableEq α] : List (α × β) → α → Option β
  | [], _ => none
  | (k, v) :: t, key => if k = key then some v else dictLookup t key

/-- Embedding of the loop building `ohlcv_map` (lines 132-134): iterate over
`zip(dates, times)` with the running index and insert, so that a later row
with the same key shadows an earlier one. -/
def buildMap (dates times : List Int) : List (BarKey × Nat) :=
  (dates.zip times).enum.foldl (fun m ik => (ik.2, ik.1) :: m) []

/-- The three aligned output arrays of `align_data`. -/
structure AlignedArrays where
  a115 : List PyFloat
  a315 : List PyFloat
  a555 : List PyFloat
deriving DecidableEq

/-- Writes of one matched CSV row `i` at bar position `p` (lines 145-150):
each field is written only under its own `i < len(...)` guard. -/
def alignWrite (csv : CsvData) (i p : Nat) (st : AlignedArrays) : AlignedArrays where
  a115 := if i < csv.tgt115.length then st.a115.set p (csv.tgt115.getD i .nan) else st.a115
  a315 := if i < csv.tgt315.length then st.a315.set p (csv.tgt315.getD i .nan) else st.a315
  a555 := if i < csv.tgt555.length then st.a555.set p (csv.tgt555.getD i .nan) else st.a555

/-- Body of the alignment loop (lines 141-150) for the row with index and
key `ik`: look the key up; a missing key contributes nothing. -/
def alignStep (csv : CsvData) (m : List (BarKey × Nat)) (st : AlignedArrays)
    (ik : Nat × BarKey) : AlignedArrays :=
  match dictLookup m ik.2 with
  | none => st
  | some p => alignWrite csv ik.1 p st

/-- Embedding of `align_data` (lines 129-152): arrays of length
`len(ohlcv['date'])` filled with NaN, then one pass over the CSV rows. -/
def align_data (odates otimes : List Int) (csv : CsvData) : AlignedArrays :=
  let m := buildMap odates otimes
  let n := odates.length
  (csv.dates.zip csv.times).enum.foldl (alignStep csv m)
    ⟨List.replicate n .nan, List.replicate n .nan, List.replicate n .nan⟩

/-! ## extract_computed_values (plot_hit_or_miss.py, lines 99-127)

A raw text line enters the embedding through the four observations the code
makes of it: whether it contains both the indicator name and `Up=` (the
section header test), whether it contains both `Bar` and `Expected` (the
data-line test), the result of `int(parts[0])` / `float(parts[1])` /
`float(parts[2])` after splitting when the line has at least 4 fields
(`some (bar_idx, computed)` when all three conversions succeed, `none`
otherwise, including short lines — the bare `except` swallows failures),
and whether it contains `Summary:`. -/

/-- Per-line observations made by `extract_computed_values`. -/
structure LogLine where
  isHeaderLine : Bool
  isDataLine : Bool
  tripleParse : Option (Int × PyFloat)
  isSummaryLine : Bool
deriving DecidableEq

/-- Loop of `extract_computed_values` (lines 107-125): a header line sets
`in_section` and `continue`s; while in section a data line whose triple
parses adds an entry to the dict (later entries shadow earlier ones, modelled
by consing); a `Summary:` line while in section `break`s out of the loop. -/
def extractGo : List LogLine → Bool → List (Int × PyFloat) → List (Int × PyFloat)
  | [], _, acc => acc
  | l :: ls, inSection, acc =>
    if l.isHeaderLine then extractGo ls true acc
    else
      let acc' :=
        if inSection && l.isDataLine then
          match l.tripleParse with
          | some bc => (bc.1, bc.2) :: acc
          | none => acc
        else acc
      if inSection && l.isSummaryLine then acc'
      else extractGo ls inSection acc'

/-- Embedding of `extract_computed_values` (lines 99-127). -/
def extract_computed_values (lines : List LogLine) : List (Int × PyFloat) :=
  extractGo lines false []

/-- Entry for a bar index in the resulting dict. -/
def lookupBar (d : List (Int × PyFloat)) (b : Int) : Option PyFloat := dictLookup d b

/-- Modelled from the spec: the two-state {idle, collecting} machine that the
spec's section 4.4(b) describes for the annotated-log extractor — idle goes to
collecting on a header match, collecting goes back to idle on a summary match,
and while collecting a line matching the triple pattern adds an entry; all
other lines self-loop.  Kept for comparison with `extract_computed_values`. -/
def specTwoStateStep (st : Bool × List (Int × PyFloat)) (l : LogLine) :
    Bool × List (Int × PyFloat) :=
  match st with
  | (false, acc) => (l.isHeaderLine, acc)
  | (true, acc) =>
    if l.isHeaderLine then (true, acc)
    else if l.isSummaryLine then (false, acc)
    else match l.isDataLine, l.tripleParse with
      | true, some bc => (true, (bc.1, bc.2) :: acc)
      | _, _ => (true, acc)

/-- Modelled from the spec: run of the claimed two-state machine. -/
def specTwoStateRun (lines : List LogLine) : List (Int × PyFloat) :=
  (lines.foldl specTwoStateStep (false, [])).2

/-- States of the machine the code actually implements: the `break` on a
summary line makes the terminal state absorbing. -/
inductive ExtractState where
  | idle
  | collecting
  | done
deriving DecidableEq

/-- Step of the three-state machine equivalent to `extract_computed_values`:
as the two-state machine of the spec, except that a summary line while
collecting moves to the absorbing `done` state instead of back to `idle`. -/
def amendedStep (st : ExtractState × List (Int × PyFloat)) (l : LogLine) :
    ExtractState × List (Int × PyFloat) :=
  match st with
  | (.done, acc) => (.done, acc)
  | (.idle, acc) => (if l.isHeaderLine then .collecting else .idle, acc)
  | (.collecting, acc) =>
    if l.isHeaderLine then (.collecting, acc)
    else
      let acc' :=
        if l.isDataLine then
          match l.tripleParse with
          | some bc => (bc.1, bc.2) :: acc
          | none => acc
        else acc
      (if l.isSummaryLine then .done else .collecting, acc')

/-- Run of the three-state machine. -/
def amendedRun (lines : List LogLine) : List (Int × PyFloat) :=
  (lines.foldl amendedStep (.idle, [])).2

/-! ## create_comparison_plot (plot_cmma.py, lines 12-78)

The data frame enters the embedding as the list of its
(csv_col value, computed_col value) cell pairs, row by row; the `bar` column
is only used for the x axis of the plots and does not enter any property
under study. -/

/-- Mask of one row: `np.isfinite(df[csv_col]) & np.isfinite(df[computed_col])`
(line 16). -/
def validPairCmma (p : PyFloat × PyFloat) : Bool := p.1.isFinite && p.2.isFinite

/-- Embedding of `df_valid = df[valid_mask]` (line 17). -/
def dfValid (df : List (PyFloat × PyFloat)) : List (PyFloat × PyFloat) :=
  df.filter validPairCmma

/-- Embedding of `csv_vals = df_valid[csv_col].values` (line 28). -/
def cmmaCsvVals (df : List (PyFloat × PyFloat)) : List PyFloat :=
  (dfValid df).map Prod.fst

/-- Embedding of `computed_vals = df_valid[computed_col].values` (line 29). -/
def cmmaComputedVals (df : List (PyFloat × PyFloat)) : List PyFloat :=
  (dfValid df).map Prod.snd

/-- Embedding of `diff = computed_vals - csv_vals` (line 40). -/
def cmmaDiffVals (df : List (PyFloat × PyFloat)) : List PyFloat :=
  (dfValid df).map (fun p => p.2.sub p.1)

/-- Embedding of `np.mean(np.abs(diff))` (line 44). -/
def cmmaMAE (df : List (PyFloat × PyFloat)) : PyFloat :=
  pyMean ((cmmaDiffVals df).map PyFloat.pabs)

/-- The small epsilon `1e-10` of line 49. -/
def epsTiny : ℚ := 1 / 10000000000

/-- Embedding of
`ratio = np.where(np.abs(csv_vals) > 1e-10, computed_vals / csv_vals, 1.0)`
(line 49; `np.where` keeps the quotient exactly where the condition holds). -/
def cmmaRatioVals (df : List (PyFloat × PyFloat)) : List PyFloat :=
  (dfValid df).map (fun p =>
    if (PyFloat.fin epsTiny).blt p.1.pabs then p.2.div p.1 else .fin 1)

/-- Outcome of `create_comparison_plot`: either the warn-and-skip exit of
lines 19-21, or the rendered artefacts (the scalar statistics and the arrays
handed to the plot, including the value pair lists fed to `np.corrcoef`). -/
inductive CmmaResult where
  | skipNoValid
  | plotted (mae : PyFloat) (ratioVals : List PyFloat)
      (corrCsv corrComp : List PyFloat) (minVal maxVal : PyFloat)
deriving DecidableEq

/-- NumPy `.min()` reduction: raises `ValueError` on an empty array. -/
def npMinE : List PyFloat → Except String PyFloat
  | [] => .error "zero-size array to reduction operation"
  | x :: xs => .ok (xs.foldl pymin2 x)

/-- NumPy `.max()` reduction: raises `ValueError` on an empty array. -/
def npMaxE : List PyFloat → Except String PyFloat
  | [] => .error "zero-size array to reduction operation"
  | x :: xs => .ok (xs.foldl pymax2 x)

/-- Embedding of `create_comparison_plot` (lines 12-78): if no row passes the
validity mask, print a warning and return; otherwise compute the statistics
and the reductions `min(csv_vals.min(), computed_vals.min())` /
`max(csv_vals.max(), computed_vals.max())` of lines 60-61 (which would raise
on an empty array) and render. -/
def create_comparison_plot (df : List (PyFloat × PyFloat)) :
    Except String CmmaResult :=
  if (dfValid df).isEmpty then .ok .skipNoValid
  else do
    let mn1 ← npMinE (cmmaCsvVals df)
    let mn2 ← npMinE (cmmaComputedVals df)
    let mx1 ← npMaxE (cmmaCsvVals df)
    let mx2 ← npMaxE (cmmaComputedVals df)
    .ok (.plotted (cmmaMAE df) (cmmaRatioVals df)
      (cmmaCsvVals df) (cmmaComputedVals df) (pymin2 mn1 mn2) (pymax2 mx1 mx2))

/-! ## Per-indicator statistics of plot_hit_or_miss.py main (lines 285-342) -/

/-- The zipped pair array (csv value, computed value) at each bar position. -/
def hmPairs (csv comp : List PyFloat) : List (PyFloat × PyFloat) := csv.zip comp

/-- Mask of line 287: `~np.isnan(csv_vals) & ~np.isnan(computed_vals)`. -/
def validPairHm (p : PyFloat × PyFloat) : Bool := !p.1.isNan && !p.2.isNan

/-- Embedding of `valid_indices = np.where(valid)[0]` (line 288): the
positions where the mask holds, in increasing order. -/
def hmValidIdxs (csv comp : List PyFloat) : List Nat :=
  (List.range (hmPairs csv comp).length).filter
    (fun j => validPairHm ((hmPairs csv comp).getD j (.nan, .nan)))

/-- The slice `[start_idx : end_idx + 1]` of the pair array, with
`start_idx = valid_indices[0]` and `end_idx = valid_indices[-1]`
(lines 294-295); empty when there is no valid index. -/
def hmSlice (csv comp : List PyFloat) : List (PyFloat × PyFloat) :=
  match hmValidIdxs csv comp with
  | [] => []
  | s :: rest =>
    ((hmPairs csv comp).take ((s :: rest).getLast (List.cons_ne_nil s rest) + 1)).drop s

/-- Embedding of `diff = computed_vals[s:e+1] - csv_vals[s:e+1]` (line 326). -/
def hmDiff (csv comp : List PyFloat) : List PyFloat :=
  (hmSlice csv comp).map (fun p => p.2.sub p.1)

/-- Embedding of `mae = np.nanmean(np.abs(diff))` (line 336). -/
def hmMAE (csv comp : List PyFloat) : PyFloat :=
  nanmean ((hmDiff csv comp).map PyFloat.pabs)

/-- Embedding of `max_error = np.nanmax(np.abs(diff))` (line 337). -/
def hmMaxErr (csv comp : List PyFloat) : PyFloat :=
  nanmax ((hmDiff csv comp).map PyFloat.pabs)

/-- Embedding of
`mean_rel_error = np.nanmean(np.abs(diff / csv_vals[s:e+1])) * 100` (line 338). -/
def hmMRE (csv comp : List PyFloat) : PyFloat :=
  (nanmean ((List.zipWith PyFloat.div (hmDiff csv comp)
    ((hmSlice csv comp).map Prod.fst)).map PyFloat.pabs)).mul100

/-- Scalar statistics of one indicator's comparison (lines 336-338). -/
structure HmStats where
  mae : PyFloat
  maxErr : PyFloat
  meanRelErr : PyFloat
deriving DecidableEq

/-- Python indexing `valid_indices[0]`: `IndexError` on an empty array. -/
def headE : List Nat → Except String Nat
  | [] => .error "index out of range"
  | x :: _ => .ok x

/-- Python indexing `valid_indices[-1]`: `IndexError` on an empty array. -/
def lastE : List Nat → Except String Nat
  | [] => .error "index out of range"
  | x :: xs => .ok ((x :: xs).getLast (List.cons_ne_nil x xs))

/-- Per-indicator body of the loop of lines 285-342: when the mask is
nowhere true, warn and `continue` (modelled by `.ok none`); otherwise index
into `valid_indices` (which would raise on an empty array) and produce the
statistics. -/
def hmCompareField (csv comp : List PyFloat) : Except String (Option HmStats) :=
  if (hmValidIdxs csv comp).isEmpty then .ok none
  else do
    let _s ← headE (hmValidIdxs csv comp)
    let _e ← lastE (hmValidIdxs csv comp)
    .ok (some ⟨hmMAE csv comp, hmMaxErr csv comp, hmMRE csv comp⟩)

/-! ## Claim-side formulas (stated from the spec's words, for comparison) -/

/-- The jointly non-NaN pairs, in position order. -/
def validPairsHm (csv comp : List PyFloat) : List (PyFloat × PyFloat) :=
  (hmPairs csv comp).filter validPairHm

/-- The jointly non-NaN pairs as rationals (meaningful when every value is
finite or NaN). -/
def validPairsQ (csv comp : List PyFloat) : List (ℚ × ℚ) :=
  (validPairsHm csv comp).map (fun p => (p.1.toQ, p.2.toQ))

/-- Modelled from the spec: MAE as the mean of the absolute differences over
the jointly valid positions, undefined when there are none. -/
def specMAE (csv comp : List PyFloat) : Option ℚ :=
  let l := validPairsQ csv comp
  if l.isEmpty then none
  else some ((l.map (fun p => |p.2 - p.1|)).sum / l.length)

/-- Modelled from the spec: max error as the maximum absolute difference over
the jointly valid positions, undefined when there are none. -/
def specMaxErr (csv comp : List PyFloat) : Option ℚ :=
  match validPairsQ csv comp with
  | [] => none
  | x :: xs => some (xs.foldl (fun a p => max a |p.2 - p.1|) |x.2 - x.1|)

/-- Modelled from the spec: mean relative error (%) as the mean of
`|difference / reference|` over the valid positions with nonzero reference,
times 100; undefined when there are none. -/
def specMRE (csv comp : List PyFloat) : Option ℚ :=
  let s := (validPairsQ csv comp).filter (fun p => decide (p.1 ≠ 0))
  if s.isEmpty then none
  else some ((s.map (fun p => |(p.2 - p.1) / p.1|)).sum / s.length * 100)

/-- Fold computing the index of the last entry with a given key, used to
describe the dict built by the forward insertion loop. -/
def lpAux (l : List (ℕ × BarKey)) (k : BarKey) (init : Option ℕ) : Option ℕ :=
  l.foldl (fun r ik => if ik.2 = k then some ik.1 else r) init

/-- Test for a value that is finite or NaN (no infinity); the hit-or-miss
statistics are characterised under this hypothesis on the inputs. -/
def finiteOrNan (x : PyFloat) : Bool := x.isNan || x.isFinite

/-! ## General list helpers -/

theorem getD_map_of_lt {α β : Type} (f : α → β) (l : List α) (j : ℕ)
    (h : j < l.length) (d : β) (d2 : α) :
    (l.map f).getD j d = f (l.getD j d2) := by
  rw [List.getD_eq_getElem _ _ (by simpa using h), List.getD_eq_getElem _ _ h,
    List.getElem_map]

theorem getD_set_self {α : Type} (l : List α) (p : ℕ) (v d : α) (h : p < l.length) :
    (l.set p v).getD p d = v := by
  rw [List.getD_eq_getElem _ _ (by simpa using h), List.getElem_set_self]

theorem getD_set_ne {α : Type} (l : List α) (p q : ℕ) (v d : α) (h : p ≠ q) :
    (l.set p v).getD q d = l.getD q d := by
  rcases Nat.lt_or_ge q l.length with hq | hq
  · rw [List.getD_eq_getElem _ _ (by simpa using hq), List.getD_eq_getElem _ _ hq,
      List.getElem_set_ne h]
  · rw [List.getD_eq_getElem?_getD, List.getD_eq_getElem?_getD,
      List.getElem?_eq_none (by simpa using hq), List.getElem?_eq_none hq]

theorem mem_take_imp {α : Type} {x : α} {l : List α} {n : ℕ} (d : α)
    (h : x ∈ l.take n) : ∃ j, j < n ∧ j < l.length ∧ l.getD j d = x := by
  rcases List.mem_iff_getElem.1 h with ⟨j, hj, he⟩
  have hj2 : j < n ∧ j < l.length := by
    have := hj; rw [List.length_take] at this; exact ⟨lt_of_lt_of_le this (min_le_left _ _),
      lt_of_lt_of_le this (min_le_right _ _)⟩
  refine ⟨j, hj2.1, hj2.2, ?_⟩
  rw [List.getD_eq_getElem _ _ hj2.2, ← List.getElem_take l (h := hj)]
  exact he

theorem mem_drop_imp {α : Type} {x : α} {l : List α} {n : ℕ} (d : α)
    (h : x ∈ l.drop n) : ∃ j, n ≤ j ∧ j < l.length ∧ l.getD j d = x := by
  rcases List.mem_iff_getElem.1 h with ⟨j, hj, he⟩
  have hj2 : n + j < l.length := by
    have := hj; rw [List.length_drop] at this; omega
  refine ⟨n + j, Nat.le_add_right _ _, hj2, ?_⟩
  rw [List.getD_eq_getElem _ _ hj2, ← List.getElem_drop l (h := hj)]
  exact he

theorem mem_getD_imp {α : Type} {x : α} {l : List α} (d : α)
    (h : x ∈ l) : ∃ j, j < l.length ∧ l.getD j d = x := by
  rcases List.mem_iff_getElem.1 h with ⟨j, hj, he⟩
  exact ⟨j, hj, by rw [List.getD_eq_getElem _ _ hj]; exact he⟩

/-! ## Equivalence of the extractor with its terminating state machine -/

theorem foldl_amendedStep_done (lines : List LogLine) (acc : List (Int × PyFloat)) :
    lines.foldl amendedStep (ExtractState.done, acc) = (ExtractState.done, acc) := by
  induction lines with
  | nil => rfl
  | cons l ls ih => simpa [amendedStep] using ih

theorem extractGo_eq_amended (lines : List LogLine) :
    ∀ (inS : Bool) (acc : List (Int × PyFloat)),
      extractGo lines inS acc =
        (lines.foldl amendedStep
          ((if inS then ExtractState.collecting else ExtractState.idle), acc)).2 := by
  induction lines with
  | nil => intro inS acc; cases inS <;> rfl
  | cons l ls ih =>
    intro inS acc
    cases inS with
    | false =>
      by_cases hH : l.isHeaderLine
      · simpa [extractGo, amendedStep, hH] using ih true acc
      · simpa [extractGo, amendedStep, hH] using ih false acc
    | true =>
      by_cases hH : l.isHeaderLine
      · simpa [extractGo, amendedStep, hH] using ih true acc
      · by_cases hS : l.isSummaryLine
        · have hstep : amendedStep (ExtractState.collecting, acc) l =
              (ExtractState.done,
                if l.isDataLine then
                  match l.tripleParse with
                  | some bc => (bc.1, bc.2) :: acc
                  | none => acc
                else acc) := by
            simp [amendedStep, hH, hS]
          rw [List.foldl_cons, if_pos rfl, hstep, foldl_amendedStep_done]
          simp [extractGo, hH, hS]
        · simpa [extractGo, amendedStep, hH, hS] using
            ih true (if l.isDataLine then
              match l.tripleParse with
              | some bc => (bc.1, bc.2) :: acc
              | none => acc
            else acc)

/-- Claim C3, amended: the extractor equals a state machine over input lines
with states {idle, collecting, done}: idle moves to collecting on a header
match; while collecting, every non-header line matching the triple pattern
adds a (bar index, computed value) entry and a line matching neither pattern
is ignored without error; but a line matching the summary marker while
collecting moves to the absorbing terminal state — the scan stops outright
instead of returning to idle, so a later section header resumes nothing. -/
theorem extractor_amended (lines : List LogLine) :
    extract_computed_values lines = amendedRun lines := by
  simpa [extract_computed_values, amendedRun] using extractGo_eq_amended lines false []

/-- Claim C3, counterexample: on header, summary, header, data the code
(which breaks at the summary) extracts nothing, while the claimed
two-state machine (collecting back to idle on summary, idle to collecting
on the second header) extracts the data entry. -/
theorem extractor_counterexample :
    extract_computed_values
        [⟨true, false, none, false⟩, ⟨false, false, none, true⟩,
         ⟨true, false, none, false⟩, ⟨false, true, some (3, PyFloat.fin 2), false⟩] = [] ∧
      specTwoStateRun
        [⟨true, false, none, false⟩, ⟨false, false, none, true⟩,
         ⟨true, false, none, false⟩, ⟨false, true, some (3, PyFloat.fin 2), false⟩]
        = [(3, PyFloat.fin 2)] :=
  ⟨rfl, rfl⟩

/-! ## Empty-overlap handling (claim C7) -/

/-- Claim C7: when the two series share no jointly valid position, both
comparison drivers produce the explicit warn-and-skip outcome — no raised
error and no statistics record. -/
theorem empty_overlap_skip (df : List (PyFloat × PyFloat)) (csv comp : List PyFloat)
    (h1 : dfValid df = []) (h2 : hmValidIdxs csv comp = []) :
    create_comparison_plot df = .ok .skipNoValid ∧
      hmCompareField csv comp = .ok none := by
  constructor
  · simp [create_comparison_plot, h1]
  · simp [hmCompareField, h2]

/-- Claim C7, witness. -/
theorem empty_overlap_skip_witness :
    create_comparison_plot [(PyFloat.nan, PyFloat.fin 1)] = .ok .skipNoValid ∧
      hmCompareField [PyFloat.nan] [PyFloat.fin 1] = .ok none :=
  empty_overlap_skip [(PyFloat.nan, PyFloat.fin 1)] [PyFloat.nan] [PyFloat.fin 1]
    rfl rfl

/-! ## Parser claims (C8, C9, C10) -/

theorem truthy_false_getD {o : Option ℕ} (h : truthy o = false) : o.getD 0 = 0 := by
  have := h
  unfold truthy at this
  simpa using this

theorem truthyIdxs_eq_nil (a b c : Option ℕ)
    (ha : truthy a = false) (hb : truthy b = false) (hc : truthy c = false) :
    truthyIdxs a b c = [] := by
  have ha2 := truthy_false_getD ha
  have hb2 := truthy_false_getD hb
  have hc2 := truthy_false_getD hc
  cases a <;> cases b <;> cases c <;>
    simp_all [truthyIdxs, List.filterMap, List.filter]

/-- Claim C10: when none of the three requested indicator columns gets a
truthy stored index (absent, or present at header position 0), any input
with at least one data line makes the parser evaluate `max` over an empty
sequence: the whole parse raises instead of returning empty series. -/
theorem all_columns_falsy_error (intOf : String → Option ℤ)
    (floatOf : String → Option PyFloat) (header : List String)
    (r : List String) (rows : List (List String))
    (h115 : truthy (idxOf header "TGT_115") = false)
    (h315 : truthy (idxOf header "TGT_315") = false)
    (h555 : truthy (idxOf header "TGT_555") = false) :
    parse_tssb_csv intOf floatOf header (r :: rows) = .error emptyMaxMsg := by
  have hrow : processRow intOf floatOf (idxOf header "TGT_115")
      (idxOf header "TGT_315") (idxOf header "TGT_555") ⟨[], [], [], [], []⟩ r
      = .error emptyMaxMsg := by
    unfold processRow
    rw [truthyIdxs_eq_nil _ _ _ h115 h315 h555]
    rfl
  unfold parse_tssb_csv
  rw [List.foldlM_cons, hrow]
  rfl

/-- Claim C10, witness. -/
theorem all_columns_falsy_error_witness :
    parse_tssb_csv (fun _ => none) (fun _ => none) ["A"] [["x"]]
      = .error emptyMaxMsg :=
  all_columns_falsy_error (fun _ => none) (fun _ => none) ["A"] ["x"] []
    (by decide) (by decide) (by decide)

theorem processRow_tgt115_of_falsy (intOf : String → Option ℤ)
    (floatOf : String → Option PyFloat) (i115 i315 i555 : Option ℕ)
    (h115 : truthy i115 = false)
    (acc : CsvData) (parts : List String) (out : CsvData)
    (h : processRow intOf floatOf i115 i315 i555 acc parts = .ok out) :
    out.tgt115 = acc.tgt115 := by
  unfold processRow at h
  cases hm : pyMaxNat (truthyIdxs i115 i315 i555) with
  | error e => rw [hm] at h; exact absurd h (by simp [Bind.bind, Except.bind])
  | ok m =>
    rw [hm] at h
    simp only [Bind.bind, Except.bind] at h
    by_cases hlen : m < parts.length
    · rw [if_pos hlen] at h
      cases hd : intCell intOf (parts.getD 0 "") with
      | error e => rw [hd] at h; exact absurd h (by simp)
      | ok d =>
        rw [hd] at h
        cases ht : intCell intOf (parts.getD 1 "") with
        | error e => rw [ht] at h; exact absurd h (by simp)
        | ok t =>
          simp only [ht, h115, if_false, Bool.false_eq_true] at h
          cases h
          rfl
    · rw [if_neg hlen] at h
      cases h
      rfl

theorem parse_foldlM_tgt115 (intOf : String → Option ℤ)
    (floatOf : String → Option PyFloat) (i115 i315 i555 : Option ℕ)
    (h115 : truthy i115 = false) :
    ∀ (rows : List (List String)) (acc out : CsvData),
      rows.foldlM (processRow intOf floatOf i115 i315 i555) acc = .ok out →
      out.tgt115 = acc.tgt115 := by
  intro rows
  induction rows with
  | nil =>
    intro acc out h
    cases h
    rfl
  | cons r rs ih =>
    intro acc out h
    rw [List.foldlM_cons] at h
    cases hr : processRow intOf floatOf i115 i315 i555 acc r with
    | error e =>
      rw [hr] at h
      exact absurd h (by simp [Bind.bind, Except.bind])
    | ok mid =>
      rw [hr] at h
      simp only [Bind.bind, Except.bind] at h
      rw [ih mid out h]
      exact processRow_tgt115_of_falsy intOf floatOf i115 i315 i555 h115 acc r mid hr

/-- Claim C9: when the requested column TGT_115 occupies header position 0,
its stored index is 0, the truthiness presence check fails, and the parser
collects no values for that column even though it is present in the header
— whatever the data rows contain. -/
theorem column_index_zero_ignored (intOf : String → Option ℤ)
    (floatOf : String → Option PyFloat) (hs : List String)
    (rows : List (List String)) (out : CsvData)
    (hparse : parse_tssb_csv intOf floatOf ("TGT_115" :: hs) rows = .ok out) :
    out.tgt115 = [] := by
  have hidx : idxOf ("TGT_115" :: hs) "TGT_115" = some 0 := by
    simp [idxOf, List.indexOf_cons_self]
  unfold parse_tssb_csv at hparse
  rw [hidx] at hparse
  have h115 : truthy (some 0) = false := rfl
  exact parse_foldlM_tgt115 intOf floatOf (some 0) _ _ h115 rows ⟨[], [], [], [], []⟩
    out hparse

/-- Claim C9, witness: TGT_115 heads the header and a well-formed data row
is parsed (thanks to the truthy TGT_315 index), yet the TGT_115 series
comes back empty. -/
theorem column_index_zero_ignored_witness :
    (⟨[1], [2], [], [PyFloat.nan], []⟩ : CsvData).tgt115 = [] :=
  column_index_zero_ignored
    (fun s => if s = "1" then some 1 else if s = "2" then some 2 else none)
    (fun _ => none) ["TGT_315"] [["1", "2", "3"]]
    ⟨[1], [2], [], [PyFloat.nan], []⟩ (by rfl)

/-- Claim C8: a reference-CSV numeric cell whose float conversion fails is
recorded as the explicit NaN marker — not zero and not an exception — and
the rest of the record is still produced: the date, time and the other
indicator field of the same row keep their own values. -/
theorem unparsable_cell_nan (intOf : String → Option ℤ)
    (floatOf : String → Option PyFloat) (header : List String)
    (parts : List String) (n115 n315 m : ℕ) (d t : ℤ) (v : PyFloat)
    (h115 : idxOf header "TGT_115" = some n115) (hn115 : n115 ≠ 0)
    (h315 : idxOf header "TGT_315" = some n315) (hn315 : n315 ≠ 0)
    (h555 : truthy (idxOf header "TGT_555") = false)
    (hmax : pyMaxNat (truthyIdxs (idxOf header "TGT_115") (idxOf header "TGT_315")
      (idxOf header "TGT_555")) = .ok m)
    (hlen : m < parts.length)
    (hd : intOf (parts.getD 0 "") = some d)
    (ht : intOf (parts.getD 1 "") = some t)
    (hfail : floatOf (parts.getD n115 "") = none)
    (hok : floatOf (parts.getD n315 "") = some v) :
    parse_tssb_csv intOf floatOf header [parts]
        = .ok ⟨[d], [t], [PyFloat.nan], [v], []⟩ ∧
      PyFloat.nan ≠ PyFloat.fin 0 := by
  refine ⟨?_, by simp⟩
  have htr115 : truthy (idxOf header "TGT_115") = true := by
    rw [h115]; simpa [truthy] using hn115
  have htr315 : truthy (idxOf header "TGT_315") = true := by
    rw [h315]; simpa [truthy] using hn315
  have hg115 : (idxOf header "TGT_115").getD 0 = n115 := by rw [h115]; rfl
  have hg315 : (idxOf header "TGT_315").getD 0 = n315 := by rw [h315]; rfl
  unfold parse_tssb_csv
  rw [List.foldlM_cons]
  have hrow : processRow intOf floatOf (idxOf header "TGT_115")
      (idxOf header "TGT_315") (idxOf header "TGT_555") ⟨[], [], [], [], []⟩ parts
      = .ok ⟨[d], [t], [PyFloat.nan], [v], []⟩ := by
    unfold processRow
    rw [hmax]
    simp only [Bind.bind, Except.bind, if_pos hlen, intCell, hd, ht,
      htr115, htr315, h555, hg115, hg315, hfail, hok, if_true, if_false]
    rfl
  rw [hrow]
  rfl

/-- Claim C8, witness: the TGT_115 cell of the single data row fails float
conversion while the TGT_315 cell parses; the row is still produced with a
NaN in the TGT_115 slot and the parsed value in the TGT_315 slot. -/
theorem unparsable_cell_nan_witness :
    parse_tssb_csv
        (fun s => if s = "20240101" then some 20240101 else
          if s = "930" then some 930 else none)
        (fun s => if s = "1.5" then some (PyFloat.fin 1) else none)
        ["DATE", "TIME", "TGT_115", "TGT_315"]
        [["20240101", "930", "abc", "1.5"]]
        = .ok ⟨[20240101], [930], [PyFloat.nan], [PyFloat.fin 1], []⟩ ∧
      PyFloat.nan ≠ PyFloat.fin 0 :=
  unparsable_cell_nan
    (fun s => if s = "20240101" then some 20240101 else
      if s = "930" then some 930 else none)
    (fun s => if s = "1.5" then some (PyFloat.fin 1) else none)
    ["DATE", "TIME", "TGT_115", "TGT_315"]
    ["20240101", "930", "abc", "1.5"] 2 3 3 20240101 930 (PyFloat.fin 1)
    (by rfl) (by decide) (by rfl) (by decide) (by rfl) (by rfl) (by decide)
    (by rfl) (by rfl) (by rfl) (by rfl)

/-! ## Characterisation of buildMap (last occurrence wins) -/

theorem lpAux_init (l : List (ℕ × BarKey)) (k : BarKey) :
    ∀ init : Option ℕ, lpAux l k init =
      match lpAux l k none with
      | some w => some w
      | none => init := by
  induction l with
  | nil => intro init; rfl
  | cons x t ih =>
    intro init
    show lpAux t k (if x.2 = k then some x.1 else init) =
      match lpAux t k (if x.2 = k then some x.1 else none) with
      | some w => some w
      | none => init
    by_cases hx : x.2 = k
    · rw [if_pos hx, if_pos hx, ih (some x.1)]
      rcases h : lpAux t k none with _ | w <;> simp
    · rw [if_neg hx, if_neg hx, ih init]

theorem dictLookup_buildFold (l : List (ℕ × BarKey)) (k : BarKey) :
    ∀ acc : List (BarKey × ℕ),
      dictLookup (l.foldl (fun m ik => (ik.2, ik.1) :: m) acc) k =
        match lpAux l k none with
        | some v => some v
        | none => dictLookup acc k := by
  induction l with
  | nil => intro acc; rfl
  | cons x t ih =>
    intro acc
    show dictLookup (t.foldl (fun m ik => (ik.2, ik.1) :: m) ((x.2, x.1) :: acc)) k =
      match lpAux t k (if x.2 = k then some x.1 else none) with
      | some v => some v
      | none => dictLookup acc k
    rw [ih ((x.2, x.1) :: acc)]
    by_cases hx : x.2 = k
    · rw [if_pos hx, lpAux_init t k (some x.1)]
      rcases h : lpAux t k none with _ | w <;> simp [h, dictLookup, hx]
    · rw [if_neg hx, lpAux_init t k none]
      rcases h : lpAux t k none with _ | w <;> simp [h, dictLookup, hx]

theorem dictLookup_buildMap (dates times : List ℤ) (k : BarKey) :
    dictLookup (buildMap dates times) k = lpAux (dates.zip times).enum k none := by
  rw [buildMap, dictLookup_buildFold]
  rcases h : lpAux (dates.zip times).enum k none with _ | v <;> rfl

theorem lpAux_of_not_mem (l : List (ℕ × BarKey)) (k : BarKey)
    (h : ∀ e ∈ l, e.2 ≠ k) : ∀ init, lpAux l k init = init := by
  induction l with
  | nil => intro init; rfl
  | cons x t ih =>
    intro init
    show lpAux t k (if x.2 = k then some x.1 else init) = init
    rw [if_neg (h x (List.mem_cons_self x t))]
    exact ih (fun e he => h e (List.mem_cons_of_mem x he)) init

theorem lpAux_some_imp (l : List (ℕ × BarKey)) (k : BarKey) :
    ∀ (init : Option ℕ) (p : ℕ), lpAux l k init = some p →
      (p, k) ∈ l ∨ init = some p := by
  induction l with
  | nil => intro init p h; exact Or.inr h
  | cons x t ih =>
    intro init p h
    have h2 : lpAux t k (if x.2 = k then some x.1 else init) = some p := h
    rcases ih _ p h2 with hm | hi
    · exact Or.inl (List.mem_cons_of_mem x hm)
    · by_cases hx : x.2 = k
      · rw [if_pos hx] at hi
        injection hi with hi
        left
        have hxp : x = (p, k) := by
          rcases x with ⟨x1, x2⟩
          simp only at hx hi
          rw [hx, hi]
        rw [hxp]
        exact List.mem_cons_self _ t
      · rw [if_neg hx] at hi
        exact Or.inr hi

theorem lpAux_last_occurrence (keys : List BarKey) (k : BarKey) (p : ℕ)
    (hp : p < keys.length) (hk : keys.getD p (0, 0) = k)
    (hlast : ∀ j, p < j → j < keys.length → keys.getD j (0, 0) ≠ k) :
    lpAux keys.enum k none = some p := by
  have hlen : keys.enum.length = keys.length := List.enum_length
  have hpe : p < keys.enum.length := by omega
  have hsplit : keys.enum = keys.enum.take (p + 1) ++ keys.enum.drop (p + 1) :=
    (List.take_append_drop _ _).symm
  have htake : keys.enum.take (p + 1) = keys.enum.take p ++ [(p, keys[p])] := by
    rw [List.take_succ]
    congr 1
    rw [List.getElem?_eq_getElem hpe, List.getElem_enum]
    rfl
  have hinner : lpAux (keys.enum.take (p + 1)) k none = some p := by
    rw [htake, lpAux, List.foldl_append]
    show (if keys[p] = k then some p else _) = some p
    rw [if_pos (by rw [← List.getD_eq_getElem keys (0, 0) hp]; exact hk)]
  have houter : ∀ e ∈ keys.enum.drop (p + 1), e.2 ≠ k := by
    intro e he
    rcases mem_drop_imp (0, ((0 : ℤ), (0 : ℤ))) he with ⟨j, hj1, hj2, hj3⟩
    have hjk : j < keys.length := by omega
    have he2 : e = (j, keys[j]) := by
      rw [← hj3, List.getD_eq_getElem _ _ hj2, List.getElem_enum]
    rw [he2]
    intro hc
    exact hlast j (by omega) hjk (by rw [List.getD_eq_getElem _ _ hjk]; exact hc)
  have hstep : lpAux keys.enum k none
      = lpAux (keys.enum.drop (p + 1)) k (lpAux (keys.enum.take (p + 1)) k none) := by
    conv_lhs => rw [hsplit]
    rw [lpAux, List.foldl_append]
    rfl
  rw [hstep, hinner, lpAux_of_not_mem _ _ houter]

theorem dictLookup_buildMap_last (odates otimes : List ℤ) (k : BarKey) (p : ℕ)
    (hp : p < (odates.zip otimes).length)
    (hk : (odates.zip otimes).getD p (0, 0) = k)
    (hlast : ∀ j, p < j → j < (odates.zip otimes).length →
      (odates.zip otimes).getD j (0, 0) ≠ k) :
    dictLookup (buildMap odates otimes) k = some p := by
  rw [dictLookup_buildMap]
  exact lpAux_last_occurrence _ _ _ hp hk hlast

theorem dictLookup_buildMap_sound (odates otimes : List ℤ) (k : BarKey) (p : ℕ)
    (h : dictLookup (buildMap odates otimes) k = some p) :
    p < (odates.zip otimes).length ∧ (odates.zip otimes).getD p (0, 0) = k := by
  rw [dictLookup_buildMap] at h
  rcases lpAux_some_imp _ _ none p h with hm | hi
  · rcases mem_getD_imp (0, ((0 : ℤ), (0 : ℤ))) hm with ⟨j, hj, he⟩
    have hjk : j < (odates.zip otimes).length := by
      rw [List.enum_length] at hj; exact hj
    have he2 : (odates.zip otimes).enum.getD j (0, ((0 : ℤ), (0 : ℤ)))
        = (j, (odates.zip otimes)[j]) := by
      rw [List.getD_eq_getElem _ _ hj, List.getElem_enum]
    rw [he2] at he
    have hj2 : j = p := congrArg Prod.fst he
    have hk2 : (odates.zip otimes)[j] = k := congrArg Prod.snd he
    subst hj2
    exact ⟨hjk, by rw [List.getD_eq_getElem _ _ hjk]; exact hk2⟩
  · cases hi

/-! ## Behaviour of the alignment fold -/

theorem alignWrite_lengths (csv : CsvData) (i p : ℕ) (st : AlignedArrays) :
    (alignWrite csv i p st).a115.length = st.a115.length ∧
      (alignWrite csv i p st).a315.length = st.a315.length ∧
      (alignWrite csv i p st).a555.length = st.a555.length := by
  unfold alignWrite
  refine ⟨?_, ?_, ?_⟩ <;> dsimp only <;> split <;> simp [List.length_set]

theorem alignStep_lengths (csv : CsvData) (m : List (BarKey × ℕ))
    (st : AlignedArrays) (ik : ℕ × BarKey) :
    (alignStep csv m st ik).a115.length = st.a115.length ∧
      (alignStep csv m st ik).a315.length = st.a315.length ∧
      (alignStep csv m st ik).a555.length = st.a555.length := by
  unfold alignStep
  rcases dictLookup m ik.2 with _ | p
  · exact ⟨rfl, rfl, rfl⟩
  · exact alignWrite_lengths csv ik.1 p st

theorem alignFold_lengths (csv : CsvData) (m : List (BarKey × ℕ)) :
    ∀ (rows : List (ℕ × BarKey)) (st : AlignedArrays),
      (rows.foldl (alignStep csv m) st).a115.length = st.a115.length ∧
        (rows.foldl (alignStep csv m) st).a315.length = st.a315.length ∧
        (rows.foldl (alignStep csv m) st).a555.length = st.a555.length := by
  intro rows
  induction rows with
  | nil => intro st; exact ⟨rfl, rfl, rfl⟩
  | cons x t ih =>
    intro st
    rw [List.foldl_cons]
    rcases ih (alignStep csv m st x) with ⟨h1, h2, h3⟩
    rcases alignStep_lengths csv m st x with ⟨g1, g2, g3⟩
    exact ⟨h1.trans g1, h2.trans g2, h3.trans g3⟩

theorem alignStep_preserve (csv : CsvData) (m : List (BarKey × ℕ))
    (st : AlignedArrays) (ik : ℕ × BarKey) (p : ℕ)
    (h : dictLookup m ik.2 ≠ some p) :
    (alignStep csv m st ik).a115.getD p .nan = st.a115.getD p .nan ∧
      (alignStep csv m st ik).a315.getD p .nan = st.a315.getD p .nan ∧
      (alignStep csv m st ik).a555.getD p .nan = st.a555.getD p .nan := by
  unfold alignStep
  rcases hl : dictLookup m ik.2 with _ | q
  · exact ⟨rfl, rfl, rfl⟩
  · have hq : q ≠ p := fun hc => h (by rw [hl, hc])
    unfold alignWrite
    refine ⟨?_, ?_, ?_⟩ <;> dsimp only <;> split <;>
      first
      | rfl
      | exact getD_set_ne _ _ _ _ _ hq

theorem alignFold_preserve (csv : CsvData) (m : List (BarKey × ℕ)) (p : ℕ) :
    ∀ (rows : List (ℕ × BarKey)) (st : AlignedArrays),
      (∀ ik ∈ rows, dictLookup m ik.2 ≠ some p) →
      (rows.foldl (alignStep csv m) st).a115.getD p .nan = st.a115.getD p .nan ∧
        (rows.foldl (alignStep csv m) st).a315.getD p .nan = st.a315.getD p .nan ∧
        (rows.foldl (alignStep csv m) st).a555.getD p .nan = st.a555.getD p .nan := by
  intro rows
  induction rows with
  | nil => intro st _; exact ⟨rfl, rfl, rfl⟩
  | cons x t ih =>
    intro st hall
    rw [List.foldl_cons]
    rcases ih (alignStep csv m st x)
      (fun ik hik => hall ik (List.mem_cons_of_mem x hik)) with ⟨h1, h2, h3⟩
    rcases alignStep_preserve csv m st x p
      (hall x (List.mem_cons_self x t)) with ⟨g1, g2, g3⟩
    exact ⟨h1.trans g1, h2.trans g2, h3.trans g3⟩

theorem getD_replicate_self {α : Type} (n q : ℕ) (x : α) :
    (List.replicate n x).getD q x = x := by
  rcases Nat.lt_or_ge q n with hq | hq
  · rw [List.getD_eq_getElem _ _ (by simpa using hq), List.getElem_replicate]
  · rw [List.getD_eq_getElem?_getD, List.getElem?_eq_none (by simpa using hq)]
    rfl

theorem align_last_writer (odates otimes : List ℤ) (csv : CsvData) (p i : ℕ)
    (hi : i < (csv.dates.zip csv.times).length)
    (hlook : dictLookup (buildMap odates otimes)
      ((csv.dates.zip csv.times).getD i (0, 0)) = some p)
    (hafter : ∀ j, i < j → j < (csv.dates.zip csv.times).length →
      dictLookup (buildMap odates otimes)
        ((csv.dates.zip csv.times).getD j (0, 0)) ≠ some p)
    (hp : p < odates.length) :
    (i < csv.tgt115.length →
      (align_data odates otimes csv).a115.getD p .nan = csv.tgt115.getD i .nan) ∧
      (i < csv.tgt315.length →
        (align_data odates otimes csv).a315.getD p .nan = csv.tgt315.getD i .nan) ∧
      (i < csv.tgt555.length →
        (align_data odates otimes csv).a555.getD p .nan = csv.tgt555.getD i .nan) := by
  set keys := csv.dates.zip csv.times with hkeys
  set m := buildMap odates otimes with hm
  set init : AlignedArrays :=
    ⟨List.replicate odates.length .nan, List.replicate odates.length .nan,
      List.replicate odates.length .nan⟩ with hinit
  have hie : i < keys.enum.length := by rw [List.enum_length]; exact hi
  have halign : align_data odates otimes csv = keys.enum.foldl (alignStep csv m) init := rfl
  have hsplit : keys.enum = keys.enum.take (i + 1) ++ keys.enum.drop (i + 1) :=
    (List.take_append_drop _ _).symm
  have htake : keys.enum.take (i + 1) = keys.enum.take i ++ [(i, keys[i])] := by
    rw [List.take_succ]
    congr 1
    rw [List.getElem?_eq_getElem hie, List.getElem_enum]
    rfl
  set mid := (keys.enum.take i).foldl (alignStep csv m) init with hmid
  have hfold : align_data odates otimes csv =
      (keys.enum.drop (i + 1)).foldl (alignStep csv m)
        (alignStep csv m mid (i, keys[i])) := by
    rw [halign]
    conv_lhs => rw [hsplit]
    rw [List.foldl_append, htake, List.foldl_append]
    rfl
  have hmidlen : mid.a115.length = odates.length ∧ mid.a315.length = odates.length ∧
      mid.a555.length = odates.length := by
    rcases alignFold_lengths csv m (keys.enum.take i) init with ⟨h1, h2, h3⟩
    rw [hmid]
    exact ⟨by rw [h1]; simp [hinit], by rw [h2]; simp [hinit], by rw [h3]; simp [hinit]⟩
  have hlook2 : dictLookup m (i, keys[i]).2 = some p := by
    show dictLookup m keys[i] = some p
    rw [← List.getD_eq_getElem keys (0, 0) hi]
    exact hlook
  have hstep : alignStep csv m mid (i, keys[i]) = alignWrite csv i p mid := by
    unfold alignStep
    rw [hlook2]
  have hdrop : ∀ ik ∈ keys.enum.drop (i + 1), dictLookup m ik.2 ≠ some p := by
    intro ik hik
    rcases mem_drop_imp (0, ((0 : ℤ), (0 : ℤ))) hik with ⟨j, hj1, hj2, hj3⟩
    have hjk : j < keys.length := by rw [List.enum_length] at hj2; exact hj2
    have hik2 : ik = (j, keys[j]) := by
      rw [← hj3, List.getD_eq_getElem _ _ hj2, List.getElem_enum]
    rw [hik2]
    show dictLookup m keys[j] ≠ some p
    rw [← List.getD_eq_getElem keys (0, 0) hjk]
    exact hafter j (by omega) hjk
  rcases alignFold_preserve csv m p (keys.enum.drop (i + 1))
    (alignStep csv m mid (i, keys[i])) hdrop with ⟨hp1, hp2, hp3⟩
  rw [hfold]
  refine ⟨fun hv => ?_, fun hv => ?_, fun hv => ?_⟩
  · rw [hp1, hstep]
    show (if i < csv.tgt115.length then
        mid.a115.set p (csv.tgt115.getD i .nan) else mid.a115).getD p .nan = _
    rw [if_pos hv]
    exact getD_set_self _ _ _ _ (by rw [hmidlen.1]; exact hp)
  · rw [hp2, hstep]
    show (if i < csv.tgt315.length then
        mid.a315.set p (csv.tgt315.getD i .nan) else mid.a315).getD p .nan = _
    rw [if_pos hv]
    exact getD_set_self _ _ _ _ (by rw [hmidlen.2.1]; exact hp)
  · rw [hp3, hstep]
    show (if i < csv.tgt555.length then
        mid.a555.set p (csv.tgt555.getD i .nan) else mid.a555).getD p .nan = _
    rw [if_pos hv]
    exact getD_set_self _ _ _ _ (by rw [hmidlen.2.2]; exact hp)

theorem nodup_getD_ne {α : Type} [Inhabited α] (l : List α) (hnd : l.Nodup)
    (a b : ℕ) (ha : a < l.length) (hb : b < l.length) (hab : a ≠ b) (d : α) :
    l.getD a d ≠ l.getD b d := by
  rw [List.getD_eq_getElem _ _ ha, List.getD_eq_getElem _ _ hb]
  rcases Nat.lt_or_ge a b with h | h
  · exact (List.pairwise_iff_getElem.1 hnd) a b ha hb h
  · have hba : b < a := by omega
    exact fun hc => (List.pairwise_iff_getElem.1 hnd) b a hb ha hba hc.symm

/-- Claim C1: alignment is purely key-based.  Under the data-model invariant
that (date, time) keys are unique on both sides, a Bar at position `p` and a
ReferenceRow at position `i` with the same key make every field present in
the row land exactly at `p` in the corresponding length-N aligned array;
a position that no ReferenceRow's key maps to keeps the explicit NaN
marker; and a row whose key is absent from the index leaves the alignment
state untouched. -/
theorem align_key_based (odates otimes : List ℤ) (csv : CsvData)
    (hP : (odates.zip otimes).Nodup) (hR : (csv.dates.zip csv.times).Nodup)
    (p i : ℕ)
    (hp : p < (odates.zip otimes).length)
    (hi : i < (csv.dates.zip csv.times).length)
    (hkey : (csv.dates.zip csv.times).getD i (0, 0)
      = (odates.zip otimes).getD p (0, 0)) :
    ((align_data odates otimes csv).a115.length = odates.length ∧
      (align_data odates otimes csv).a315.length = odates.length ∧
      (align_data odates otimes csv).a555.length = odates.length) ∧
    ((i < csv.tgt115.length →
        (align_data odates otimes csv).a115.getD p .nan = csv.tgt115.getD i .nan) ∧
      (i < csv.tgt315.length →
        (align_data odates otimes csv).a315.getD p .nan = csv.tgt315.getD i .nan) ∧
      (i < csv.tgt555.length →
        (align_data odates otimes csv).a555.getD p .nan = csv.tgt555.getD i .nan)) ∧
    (∀ q, q < odates.length →
      (∀ j, j < (csv.dates.zip csv.times).length →
        dictLookup (buildMap odates otimes)
          ((csv.dates.zip csv.times).getD j (0, 0)) ≠ some q) →
      (align_data odates otimes csv).a115.getD q .nan = .nan ∧
        (align_data odates otimes csv).a315.getD q .nan = .nan ∧
        (align_data odates otimes csv).a555.getD q .nan = .nan) ∧
    (∀ st j, dictLookup (buildMap odates otimes)
        ((csv.dates.zip csv.times).getD j (0, 0)) = none →
      alignStep csv (buildMap odates otimes) st
        (j, (csv.dates.zip csv.times).getD j (0, 0)) = st) := by
  have hlens := alignFold_lengths csv (buildMap odates otimes)
    (csv.dates.zip csv.times).enum
    ⟨List.replicate odates.length .nan, List.replicate odates.length .nan,
      List.replicate odates.length .nan⟩
  refine ⟨⟨?_, ?_, ?_⟩, ?_, ?_, ?_⟩
  · rw [show (align_data odates otimes csv).a115.length = _ from hlens.1]
    simp
  · rw [show (align_data odates otimes csv).a315.length = _ from hlens.2.1]
    simp
  · rw [show (align_data odates otimes csv).a555.length = _ from hlens.2.2]
    simp
  · -- matched row writes its (present) field values at p
    have hlook : dictLookup (buildMap odates otimes)
        ((csv.dates.zip csv.times).getD i (0, 0)) = some p := by
      apply dictLookup_buildMap_last odates otimes _ p hp hkey.symm
      intro j hj1 hj2 hc
      exact nodup_getD_ne _ hP p j hp hj2 (by omega) (0, 0) (hc.trans hkey).symm
    have hafter : ∀ j, i < j → j < (csv.dates.zip csv.times).length →
        dictLookup (buildMap odates otimes)
          ((csv.dates.zip csv.times).getD j (0, 0)) ≠ some p := by
      intro j hj1 hj2 hc
      have hs1 := (dictLookup_buildMap_sound _ _ _ _ hc).2
      have hs2 := (dictLookup_buildMap_sound _ _ _ _ hlook).2
      exact nodup_getD_ne _ hR i j hi hj2 (by omega) (0, 0) (hs2.symm.trans hs1)
    exact align_last_writer odates otimes csv p i hi hlook hafter
      (lt_of_lt_of_le hp (by rw [List.length_zip]; exact min_le_left _ _))
  · -- untouched positions stay NaN
    intro q hq hnone
    have hall : ∀ ik ∈ (csv.dates.zip csv.times).enum,
        dictLookup (buildMap odates otimes) ik.2 ≠ some q := by
      intro ik hik
      rcases mem_getD_imp (0, ((0 : ℤ), (0 : ℤ))) hik with ⟨j, hj, he⟩
      have hjk : j < (csv.dates.zip csv.times).length := by
        rw [List.enum_length] at hj; exact hj
      have he2 : ik = (j, (csv.dates.zip csv.times)[j]) := by
        rw [← he, List.getD_eq_getElem _ _ hj, List.getElem_enum]
      rw [he2]
      show dictLookup (buildMap odates otimes) (csv.dates.zip csv.times)[j] ≠ some q
      rw [← List.getD_eq_getElem (csv.dates.zip csv.times) (0, 0) hjk]
      exact hnone j hjk
    rcases alignFold_preserve csv (buildMap odates otimes) q
      (csv.dates.zip csv.times).enum
      ⟨List.replicate odates.length .nan, List.replicate odates.length .nan,
        List.replicate odates.length .nan⟩ hall with ⟨h1, h2, h3⟩
    refine ⟨?_, ?_, ?_⟩
    · rw [show (align_data odates otimes csv).a115.getD q .nan = _ from h1]
      exact getD_replicate_self _ _ _
    · rw [show (align_data odates otimes csv).a315.getD q .nan = _ from h2]
      exact getD_replicate_self _ _ _
    · rw [show (align_data odates otimes csv).a555.getD q .nan = _ from h3]
      exact getD_replicate_self _ _ _
  · -- a row with an unmatched key contributes nothing
    intro st j hnone
    unfold alignStep
    rw [show ((j, (csv.dates.zip csv.times).getD j (0, 0)) : ℕ × BarKey).2
      = (csv.dates.zip csv.times).getD j (0, 0) from rfl, hnone]

/-- Claim C1, witness: the spec's own example — bars 0930/0931/0932, a
reference with rows for 0930 and 0932 only; instantiated at bar position 0
and reference row 0. -/
theorem align_key_based_witness :
    (((align_data [20240101, 20240101, 20240101] [930, 931, 932]
          ⟨[20240101, 20240101], [930, 932], [.fin 1, .fin 3], [], []⟩).a115.length = 3 ∧
      (align_data [20240101, 20240101, 20240101] [930, 931, 932]
          ⟨[20240101, 20240101], [930, 932], [.fin 1, .fin 3], [], []⟩).a315.length = 3 ∧
      (align_data [20240101, 20240101, 20240101] [930, 931, 932]
          ⟨[20240101, 20240101], [930, 932], [.fin 1, .fin 3], [], []⟩).a555.length = 3) ∧
    ((0 < ([PyFloat.fin 1, PyFloat.fin 3] : List PyFloat).length →
        (align_data [20240101, 20240101, 20240101] [930, 931, 932]
            ⟨[20240101, 20240101], [930, 932], [.fin 1, .fin 3], [], []⟩).a115.getD 0 .nan
          = ([PyFloat.fin 1, PyFloat.fin 3] : List PyFloat).getD 0 .nan) ∧
      (0 < ([] : List PyFloat).length →
        (align_data [20240101, 20240101, 20240101] [930, 931, 932]
            ⟨[20240101, 20240101], [930, 932], [.fin 1, .fin 3], [], []⟩).a315.getD 0 .nan
          = ([] : List PyFloat).getD 0 .nan) ∧
      (0 < ([] : List PyFloat).length →
        (align_data [20240101, 20240101, 20240101] [930, 931, 932]
            ⟨[20240101, 20240101], [930, 932], [.fin 1, .fin 3], [], []⟩).a555.getD 0 .nan
          = ([] : List PyFloat).getD 0 .nan)) ∧
    (∀ q, q < 3 →
      (∀ j, j < 2 →
        dictLookup (buildMap [20240101, 20240101, 20240101] [930, 931, 932])
          (([(20240101, 930), (20240101, 932)] : List BarKey).getD j (0, 0)) ≠ some q) →
      (align_data [20240101, 20240101, 20240101] [930, 931, 932]
          ⟨[20240101, 20240101], [930, 932], [.fin 1, .fin 3], [], []⟩).a115.getD q .nan = .nan ∧
        (align_data [20240101, 20240101, 20240101] [930, 931, 932]
            ⟨[20240101, 20240101], [930, 932], [.fin 1, .fin 3], [], []⟩).a315.getD q .nan = .nan ∧
        (align_data [20240101, 20240101, 20240101] [930, 931, 932]
            ⟨[20240101, 20240101], [930, 932], [.fin 1, .fin 3], [], []⟩).a555.getD q .nan = .nan) ∧
    (∀ (st : AlignedArrays) (j : ℕ),
      dictLookup (buildMap [20240101, 20240101, 20240101] [930, 931, 932])
          (([(20240101, 930), (20240101, 932)] : List BarKey).getD j (0, 0)) = none →
      alignStep ⟨[20240101, 20240101], [930, 932], [.fin 1, .fin 3], [], []⟩
          (buildMap [20240101, 20240101, 20240101] [930, 931, 932]) st
          (j, ([(20240101, 930), (20240101, 932)] : List BarKey).getD j (0, 0)) = st)) :=
  align_key_based [20240101, 20240101, 20240101] [930, 931, 932]
    ⟨[20240101, 20240101], [930, 932], [.fin 1, .fin 3], [], []⟩
    (by decide) (by decide) 0 0 (by decide) (by decide) (by decide)

/-- Claim C5: duplicate (date, time) keys resolve last-write-wins at both
stages.  A key occurring at primary positions i1 < i2 (and nowhere later) is
mapped by the built index to i2, the last occurrence; and when two reference
rows r1 < r2 carry the same key (with no later row carrying it) whose lookup
hits bar position p, the aligned value at p is the value of r2, the
later-processed row. -/
theorem duplicate_key_last_wins (odates otimes : List ℤ) (csv : CsvData)
    (i1 i2 : ℕ) (k : BarKey)
    (h12 : i1 < i2) (h2 : i2 < (odates.zip otimes).length)
    (hk1 : (odates.zip otimes).getD i1 (0, 0) = k)
    (hk2 : (odates.zip otimes).getD i2 (0, 0) = k)
    (hlast : ∀ j, i2 < j → j < (odates.zip otimes).length →
      (odates.zip otimes).getD j (0, 0) ≠ k)
    (r1 r2 : ℕ) (kr : BarKey) (p : ℕ)
    (hr12 : r1 < r2) (hr2 : r2 < (csv.dates.zip csv.times).length)
    (hkr1 : (csv.dates.zip csv.times).getD r1 (0, 0) = kr)
    (hkr2 : (csv.dates.zip csv.times).getD r2 (0, 0) = kr)
    (hrlast : ∀ j, r2 < j → j < (csv.dates.zip csv.times).length →
      (csv.dates.zip csv.times).getD j (0, 0) ≠ kr)
    (hlook : dictLookup (buildMap odates otimes) kr = some p)
    (hv : r2 < csv.tgt115.length) :
    dictLookup (buildMap odates otimes) k = some i2 ∧
      (align_data odates otimes csv).a115.getD p .nan = csv.tgt115.getD r2 .nan := by
  constructor
  · exact dictLookup_buildMap_last odates otimes k i2 h2 hk2 hlast
  · have hlook2 : dictLookup (buildMap odates otimes)
        ((csv.dates.zip csv.times).getD r2 (0, 0)) = some p := by
      rw [hkr2]; exact hlook
    have hafter : ∀ j, r2 < j → j < (csv.dates.zip csv.times).length →
        dictLookup (buildMap odates otimes)
          ((csv.dates.zip csv.times).getD j (0, 0)) ≠ some p := by
      intro j hj1 hj2 hc
      have hs1 := (dictLookup_buildMap_sound _ _ _ _ hc).2
      have hs2 := (dictLookup_buildMap_sound _ _ _ _ hlook).2
      exact hrlast j hj1 hj2 (hs1.symm.trans hs2)
    have hp : p < odates.length := by
      have := (dictLookup_buildMap_sound _ _ _ _ hlook).1
      rw [List.length_zip] at this
      omega
    exact (align_last_writer odates otimes csv p r2 hr2 hlook2 hafter hp).1 hv

/-- Claim C5, witness: the primary key (1, 5) occurs at bar positions 0 and
1 (position 2 has a different key) and maps to 1; reference rows 0 and 1
both carry key (1, 5), and the aligned value at the matched position is the
value 7 of the later row, not the 9 of the earlier one. -/
theorem duplicate_key_last_wins_witness :
    dictLookup (buildMap [1, 1, 1] [5, 5, 7]) (1, 5) = some 1 ∧
      (align_data [1, 1, 1] [5, 5, 7]
          ⟨[1, 1], [5, 5], [.fin 9, .fin 7], [], []⟩).a115.getD 1 .nan
        = ([PyFloat.fin 9, PyFloat.fin 7] : List PyFloat).getD 1 .nan :=
  duplicate_key_last_wins [1, 1, 1] [5, 5, 7]
    ⟨[1, 1], [5, 5], [.fin 9, .fin 7], [], []⟩ 0 1 (1, 5)
    (by decide) (by decide) (by decide) (by decide)
    (fun j hj1 hj2 => by
      have hj : j = 2 := by simp at hj2; omega
      subst hj; decide)
    0 1 (1, 5) 1 (by decide) (by decide) (by decide) (by decide)
    (fun j hj1 hj2 => by simp at hj2; omega)
    (by decide) (by decide)

theorem isFinite_iff_fin (x : PyFloat) : x.isFinite = true ↔ ∃ q, x = .fin q := by
  cases x <;> simp [PyFloat.isFinite]

/-- Claim C6: for every valid position of the cmma comparison, a reference
value within 1e-10 of zero in absolute value makes the ratio exactly 1.0
whatever the computed value is, and otherwise the ratio is computed divided
by reference. -/
theorem ratio_epsilon_guard (df : List (PyFloat × PyFloat)) (j : ℕ)
    (hj : j < (dfValid df).length) :
    (|((dfValid df).getD j (.nan, .nan)).1.toQ| ≤ epsTiny →
      (cmmaRatioVals df).getD j .nan = .fin 1) ∧
    (epsTiny < |((dfValid df).getD j (.nan, .nan)).1.toQ| →
      (cmmaRatioVals df).getD j .nan
        = .fin (((dfValid df).getD j (.nan, .nan)).2.toQ
            / ((dfValid df).getD j (.nan, .nan)).1.toQ)) := by
  have hmem : (dfValid df).getD j (.nan, .nan) ∈ dfValid df := by
    rw [List.getD_eq_getElem _ _ hj]
    exact List.getElem_mem hj
  have hvalid : validPairCmma ((dfValid df).getD j (.nan, .nan)) = true :=
    (List.mem_filter.1 hmem).2
  have hfin2 : ((dfValid df).getD j (.nan, .nan)).1.isFinite = true ∧
      ((dfValid df).getD j (.nan, .nan)).2.isFinite = true := by
    have h2 := hvalid
    unfold validPairCmma at h2
    exact ⟨Bool.and_elim_left h2, Bool.and_elim_right h2⟩
  rcases (isFinite_iff_fin _).1 hfin2.1 with ⟨a, ha⟩
  rcases (isFinite_iff_fin _).1 hfin2.2 with ⟨b, hb⟩
  have hget : (cmmaRatioVals df).getD j .nan =
      (if (PyFloat.fin epsTiny).blt ((dfValid df).getD j (.nan, .nan)).1.pabs
        then ((dfValid df).getD j (.nan, .nan)).2.div
          ((dfValid df).getD j (.nan, .nan)).1
        else .fin 1) := by
    unfold cmmaRatioVals
    exact getD_map_of_lt _ _ j hj PyFloat.nan (PyFloat.nan, PyFloat.nan)
  constructor
  · intro hle
    rw [ha] at hle
    simp only [PyFloat.toQ] at hle
    have hc : (PyFloat.fin epsTiny).blt (PyFloat.fin a).pabs = false := by
      simp only [PyFloat.pabs, PyFloat.blt, decide_eq_false_iff_not]
      exact not_lt.2 hle
    rw [hget, ha, hb, hc]
    simp
  · intro hlt
    rw [ha] at hlt
    simp only [PyFloat.toQ] at hlt
    have hane : a ≠ 0 := by
      intro hc0
      rw [hc0] at hlt
      simp only [abs_zero] at hlt
      have hpos : (0 : ℚ) < epsTiny := by norm_num [epsTiny]
      linarith
    have hc : (PyFloat.fin epsTiny).blt (PyFloat.fin a).pabs = true := by
      simp only [PyFloat.pabs, PyFloat.blt, decide_eq_true_eq]
      exact hlt
    rw [hget, ha, hb, hc]
    simp [PyFloat.div, hane, PyFloat.toQ]

/-- Claim C6, witness: a valid row with reference exactly 0 yields ratio
exactly 1.0 even though the computed value is 5. -/
theorem ratio_epsilon_guard_witness :
    (|((dfValid [((.fin 0 : PyFloat), (.fin 5 : PyFloat))]).getD 0 (.nan, .nan)).1.toQ|
        ≤ epsTiny →
      (cmmaRatioVals [((.fin 0 : PyFloat), (.fin 5 : PyFloat))]).getD 0 .nan = .fin 1) ∧
    (epsTiny <
        |((dfValid [((.fin 0 : PyFloat), (.fin 5 : PyFloat))]).getD 0 (.nan, .nan)).1.toQ| →
      (cmmaRatioVals [((.fin 0 : PyFloat), (.fin 5 : PyFloat))]).getD 0 .nan
        = .fin (((dfValid [((.fin 0 : PyFloat), (.fin 5 : PyFloat))]).getD 0 (.nan, .nan)).2.toQ
            / ((dfValid [((.fin 0 : PyFloat), (.fin 5 : PyFloat))]).getD 0 (.nan, .nan)).1.toQ)) :=
  ratio_epsilon_guard [((.fin 0 : PyFloat), (.fin 5 : PyFloat))] 0 (by decide)

/-! ## Reductions over lists of finite values -/

theorem foldl_add_fin (l : List PyFloat) :
    ∀ a : ℚ, (∀ x ∈ l, ∃ q, x = .fin q) →
      l.foldl PyFloat.add (.fin a) = .fin (a + (l.map PyFloat.toQ).sum) := by
  induction l with
  | nil => intro a _; simp
  | cons x t ih =>
    intro a h
    rcases h x (List.mem_cons_self x t) with ⟨q, rfl⟩
    rw [List.foldl_cons]
    show t.foldl PyFloat.add (.fin (a + q)) = _
    rw [ih (a + q) (fun y hy => h y (List.mem_cons_of_mem _ hy))]
    rw [List.map_cons, List.sum_cons, PyFloat.toQ]
    congr 1
    ring

theorem pySum_fin (l : List PyFloat) (h : ∀ x ∈ l, ∃ q, x = .fin q) :
    pySum l = .fin ((l.map PyFloat.toQ).sum) := by
  unfold pySum
  rw [foldl_add_fin l 0 h]
  congr 1
  ring

theorem foldl_add_pinf (l : List PyFloat)
    (h : ∀ x ∈ l, (∃ q, x = .fin q) ∨ x = .pinf) :
    l.foldl PyFloat.add .pinf = .pinf := by
  induction l with
  | nil => rfl
  | cons x t ih =>
    rw [List.foldl_cons]
    have hx : PyFloat.add .pinf x = .pinf := by
      rcases h x (List.mem_cons_self x t) with ⟨q, rfl⟩ | rfl <;> rfl
    rw [hx]
    exact ih (fun y hy => h y (List.mem_cons_of_mem x hy))

theorem pySum_pinf (l : List PyFloat)
    (hall : ∀ x ∈ l, (∃ q, x = .fin q) ∨ x = .pinf)
    (hex : ∃ x ∈ l, x = .pinf) : pySum l = .pinf := by
  unfold pySum
  have haux : ∀ (t : List PyFloat) (a : ℚ),
      (∀ x ∈ t, (∃ q, x = .fin q) ∨ x = .pinf) → (∃ x ∈ t, x = .pinf) →
      t.foldl PyFloat.add (.fin a) = .pinf := by
    intro t
    induction t with
    | nil => intro a _ hex2; rcases hex2 with ⟨x, hx, _⟩; cases hx
    | cons y s ih =>
      intro a hall2 hex2
      rw [List.foldl_cons]
      rcases hall2 y (List.mem_cons_self y s) with ⟨q, rfl⟩ | rfl
      · show s.foldl PyFloat.add (.fin (a + q)) = .pinf
        rcases hex2 with ⟨x, hx, hxp⟩
        rcases List.mem_cons.1 hx with rfl | hxs
        · cases hxp
        · exact ih (a + q) (fun z hz => hall2 z (List.mem_cons_of_mem _ hz))
            ⟨x, hxs, hxp⟩
      · show s.foldl PyFloat.add .pinf = .pinf
        exact foldl_add_pinf s (fun z hz => hall2 z (List.mem_cons_of_mem _ hz))
  exact haux l 0 hall hex

theorem pymax2_fin (a q : ℚ) : pymax2 (.fin a) (.fin q) = .fin (max a q) := by
  by_cases h : a < q
  · simp [pymax2, PyFloat.blt, h, max_eq_right h.le]
  · simp [pymax2, PyFloat.blt, h, max_eq_left (not_lt.1 h)]

theorem foldl_pymax2_fin (l : List PyFloat) :
    ∀ a : ℚ, (∀ x ∈ l, ∃ q, x = .fin q) →
      l.foldl pymax2 (.fin a) = .fin ((l.map PyFloat.toQ).foldl max a) := by
  induction l with
  | nil => intro a _; rfl
  | cons x t ih =>
    intro a h
    rcases h x (List.mem_cons_self x t) with ⟨q, rfl⟩
    rw [List.foldl_cons, pymax2_fin, List.map_cons, List.foldl_cons]
    exact ih (max a q) (fun y hy => h y (List.mem_cons_of_mem _ hy))

/-! ## The valid range of the hit-or-miss statistics -/

theorem hmValidIdxs_mem (csv comp : List PyFloat) (j : ℕ) :
    j ∈ hmValidIdxs csv comp ↔
      j < (hmPairs csv comp).length ∧
        validPairHm ((hmPairs csv comp).getD j (.nan, .nan)) = true := by
  unfold hmValidIdxs
  rw [List.mem_filter, List.mem_range]

theorem hmValidIdxs_pairwise (csv comp : List PyFloat) :
    (hmValidIdxs csv comp).Pairwise (· < ·) :=
  (List.pairwise_lt_range _).filter _

theorem hmValidIdxs_ge_head (csv comp : List PyFloat) (s : ℕ) (rest : List ℕ)
    (h : hmValidIdxs csv comp = s :: rest) :
    ∀ j ∈ hmValidIdxs csv comp, s ≤ j := by
  intro j hj
  rw [h] at hj
  rcases List.mem_cons.1 hj with rfl | hj2
  · exact le_refl j
  · have hpw := hmValidIdxs_pairwise csv comp
    rw [h] at hpw
    exact (List.rel_of_pairwise_cons hpw hj2).le

theorem hmValidIdxs_le_last (csv comp : List PyFloat) (s : ℕ) (rest : List ℕ)
    (h : hmValidIdxs csv comp = s :: rest) :
    ∀ j ∈ hmValidIdxs csv comp,
      j ≤ (s :: rest).getLast (List.cons_ne_nil s rest) := by
  intro j hj
  have hpw : (s :: rest).Pairwise (· < ·) := by
    rw [← h]; exact hmValidIdxs_pairwise csv comp
  have hsplit : (s :: rest).dropLast
      ++ [(s :: rest).getLast (List.cons_ne_nil s rest)] = s :: rest :=
    List.dropLast_append_getLast _
  rw [h] at hj
  rw [← hsplit] at hj hpw
  rcases List.mem_append.1 hj with hj1 | hj2
  · exact ((List.pairwise_append.1 hpw).2.2 j hj1 _ (List.mem_singleton_self _)).le
  · rw [List.mem_singleton.1 hj2]

theorem hmSlice_map_filter (csv comp : List PyFloat)
    (f : PyFloat × PyFloat → PyFloat)
    (hf : ∀ p, validPairHm p = false → (f p).isNan = true) :
    ((hmSlice csv comp).map f).filter (fun x => !x.isNan)
      = ((hmPairs csv comp).map f).filter (fun x => !x.isNan) := by
  have hinvalid : ∀ (p : PyFloat × PyFloat) (j : ℕ),
      j < (hmPairs csv comp).length →
      (hmPairs csv comp).getD j (.nan, .nan) = p →
      j ∉ hmValidIdxs csv comp → ¬((fun x => !x.isNan) (f p) = true) := by
    intro p j hj hp hnot
    have hval : validPairHm p = false := by
      rcases Bool.eq_false_or_eq_true (validPairHm p) with hv | hv
      · exact absurd ((hmValidIdxs_mem csv comp j).2 ⟨hj, by rw [hp]; exact hv⟩) hnot
      · exact hv
    simp [hf p hval]
  rcases hI : hmValidIdxs csv comp with _ | ⟨s, rest⟩
  · have hslice : hmSlice csv comp = [] := by
      unfold hmSlice
      rw [hI]
    rw [hslice]
    symm
    rw [List.map_nil, List.filter_nil, List.filter_eq_nil_iff]
    intro x hx
    rcases List.mem_iff_getElem.1 hx with ⟨j, hj, he⟩
    have hjl : j < (hmPairs csv comp).length := by
      rw [List.length_map] at hj
      exact hj
    have he2 : f ((hmPairs csv comp).getD j (.nan, .nan)) = x := by
      rw [List.getD_eq_getElem _ _ hjl, ← List.getElem_map f (h := hj)]
      exact he
    have := hinvalid ((hmPairs csv comp).getD j (.nan, .nan)) j hjl rfl
      (by rw [hI]; exact List.not_mem_nil _)
    rw [he2] at this
    exact this
  · set e := (s :: rest).getLast (List.cons_ne_nil s rest) with he
    have hse : s ≤ e := by
      apply hmValidIdxs_le_last csv comp s rest hI
      rw [hI]
      exact List.mem_cons_self s rest
    have hslice : hmSlice csv comp
        = ((hmPairs csv comp).take (e + 1)).drop s := by
      unfold hmSlice
      rw [hI]
    have hsplit1 : (hmPairs csv comp).take (e + 1)
        = (hmPairs csv comp).take s ++ hmSlice csv comp := by
      rw [hslice]
      conv_lhs => rw [← List.take_append_drop s ((hmPairs csv comp).take (e + 1))]
      rw [List.take_take, min_eq_left (by omega)]
    have hsplit : hmPairs csv comp
        = (hmPairs csv comp).take s ++ hmSlice csv comp
            ++ (hmPairs csv comp).drop (e + 1) := by
      rw [← hsplit1, List.take_append_drop]
    have hpre : (((hmPairs csv comp).take s).map f).filter (fun x => !x.isNan)
        = [] := by
      rw [List.filter_eq_nil_iff]
      intro x hx
      rcases List.mem_iff_getElem.1 hx with ⟨j, hj, hxe⟩
      have hjt : j < ((hmPairs csv comp).take s).length := by
        rw [List.length_map] at hj
        exact hj
      have hjs : j < s ∧ j < (hmPairs csv comp).length := by
        have := hjt
        rw [List.length_take] at this
        exact ⟨lt_of_lt_of_le this (min_le_left _ _),
          lt_of_lt_of_le this (min_le_right _ _)⟩
      have hxe2 : f ((hmPairs csv comp).getD j (.nan, .nan)) = x := by
        rw [List.getD_eq_getElem _ _ hjs.2, ← List.getElem_take (h := hjt),
          ← List.getElem_map f (h := hj)]
        exact hxe
      have hnot : j ∉ hmValidIdxs csv comp := by
        intro hmem
        have := hmValidIdxs_ge_head csv comp s rest hI j hmem
        omega
      have := hinvalid _ j hjs.2 rfl hnot
      rw [hxe2] at this
      exact this
    have hsuf : (((hmPairs csv comp).drop (e + 1)).map f).filter (fun x => !x.isNan)
        = [] := by
      rw [List.filter_eq_nil_iff]
      intro x hx
      rcases List.mem_iff_getElem.1 hx with ⟨j, hj, hxe⟩
      have hjt : j < ((hmPairs csv comp).drop (e + 1)).length := by
        rw [List.length_map] at hj
        exact hj
      have hjl : e + 1 + j < (hmPairs csv comp).length := by
        have := hjt
        rw [List.length_drop] at this
        omega
      have hxe2 : f ((hmPairs csv comp).getD (e + 1 + j) (.nan, .nan)) = x := by
        rw [List.getD_eq_getElem _ _ hjl, ← List.getElem_drop (h := hjt),
          ← List.getElem_map f (h := hj)]
        exact hxe
      have hnot : e + 1 + j ∉ hmValidIdxs csv comp := by
        intro hmem
        have := hmValidIdxs_le_last csv comp s rest hI _ hmem
        rw [← he] at this
        omega
      have := hinvalid _ (e + 1 + j) hjl rfl hnot
      rw [hxe2] at this
      exact this
    conv_rhs => rw [hsplit]
    rw [List.map_append, List.map_append, List.filter_append, List.filter_append,
      hpre, hsuf, List.nil_append, List.append_nil]

theorem validPair_fin (csv comp : List PyFloat)
    (hcsv : csv.all finiteOrNan = true) (hcomp : comp.all finiteOrNan = true)
    (p : PyFloat × PyFloat) (hp : p ∈ hmPairs csv comp)
    (hv : validPairHm p = true) : ∃ a b, p = (.fin a, .fin b) := by
  rcases p with ⟨x, y⟩
  rcases List.of_mem_zip hp with ⟨hx, hy⟩
  have hfx := List.all_eq_true.1 hcsv x hx
  have hfy := List.all_eq_true.1 hcomp y hy
  unfold validPairHm at hv
  have hx2 := Bool.and_elim_left hv
  have hy2 := Bool.and_elim_right hv
  cases x <;> cases y <;>
    first
    | exact ⟨_, _, rfl⟩
    | simp_all [finiteOrNan, PyFloat.isNan, PyFloat.isFinite]

theorem mae_term_nan (p : PyFloat × PyFloat) (h : validPairHm p = false) :
    ((p.2.sub p.1).pabs).isNan = true := by
  rcases p with ⟨x, y⟩
  unfold validPairHm at h
  cases x <;> cases y <;>
    simp_all [PyFloat.sub, PyFloat.add, PyFloat.neg, PyFloat.pabs, PyFloat.isNan]

theorem mre_term_nan (p : PyFloat × PyFloat) (h : validPairHm p = false) :
    (((p.2.sub p.1).div p.1).pabs).isNan = true := by
  rcases p with ⟨x, y⟩
  unfold validPairHm at h
  cases x <;> cases y <;>
    simp_all [PyFloat.sub, PyFloat.add, PyFloat.neg, PyFloat.div, PyFloat.pabs,
      PyFloat.isNan]

theorem div_fin_ne (a n : ℚ) (hn : n ≠ 0) :
    PyFloat.div (.fin a) (.fin n) = .fin (a / n) := by
  simp [PyFloat.div, hn]

theorem pyMean_map_fin {α : Type} (l : List α) (f : α → PyFloat) (g : α → ℚ)
    (h : ∀ p ∈ l, f p = .fin (g p)) :
    pyMean (l.map f)
      = if l.isEmpty then .nan else .fin ((l.map g).sum / l.length) := by
  rcases l with _ | ⟨x, t⟩
  · rfl
  · rw [pyMean, if_neg (by simp), if_neg (by simp)]
    have hfin : ∀ y ∈ (x :: t).map f, ∃ q, y = .fin q := by
      intro y hy
      rcases List.mem_map.1 hy with ⟨p, hp, rfl⟩
      exact ⟨g p, h p hp⟩
    rw [pySum_fin _ hfin]
    have hmm : ((x :: t).map f).map PyFloat.toQ = (x :: t).map g := by
      rw [List.map_map]
      apply List.map_congr_left
      intro p hp
      rw [Function.comp_apply, h p hp, PyFloat.toQ]
    rw [hmm, List.length_map]
    exact div_fin_ne _ _ (by
      simp only [List.length_cons]
      exact_mod_cast Nat.succ_ne_zero t.length)

theorem hmMAE_filter (csv comp : List PyFloat)
    (hcsv : csv.all finiteOrNan = true) (hcomp : comp.all finiteOrNan = true) :
    (hmPairs csv comp).filter
        ((fun x => !x.isNan) ∘ (PyFloat.pabs ∘ fun p => p.2.sub p.1))
      = validPairsHm csv comp := by
  rw [validPairsHm]
  apply List.filter_congr
  intro p hp
  rcases Bool.eq_false_or_eq_true (validPairHm p) with hv | hv
  · rcases validPair_fin csv comp hcsv hcomp p hp hv with ⟨a, b, rfl⟩
    rw [hv]
    rfl
  · rw [hv]
    have := mae_term_nan p hv
    simp only [Function.comp_apply]
    rw [this]
    rfl

set_option maxHeartbeats 1000000 in
theorem hmMAE_char (csv comp : List PyFloat)
    (hcsv : csv.all finiteOrNan = true) (hcomp : comp.all finiteOrNan = true) :
    hmMAE csv comp = match specMAE csv comp with
      | none => .nan
      | some q => .fin q := by
  have hfg : ∀ p ∈ validPairsHm csv comp,
      (PyFloat.pabs ∘ fun p => p.2.sub p.1) p
        = PyFloat.fin (|p.2.toQ - p.1.toQ|) := by
    intro p hp
    rcases validPair_fin csv comp hcsv hcomp p (List.mem_filter.1 hp).1
      (List.mem_filter.1 hp).2 with ⟨a, b, rfl⟩
    show PyFloat.fin |b + -a| = PyFloat.fin |(PyFloat.fin b).toQ - (PyFloat.fin a).toQ|
    rw [PyFloat.toQ, PyFloat.toQ, sub_eq_add_neg]
  rw [hmMAE, hmDiff, List.map_map, nanmean,
    hmSlice_map_filter csv comp (PyFloat.pabs ∘ fun p => p.2.sub p.1)
      (fun p hp => mae_term_nan p hp),
    List.filter_map, hmMAE_filter csv comp hcsv hcomp,
    pyMean_map_fin _ _ (fun p => |p.2.toQ - p.1.toQ|) hfg]
  rcases hV : validPairsHm csv comp with _ | ⟨h0, t0⟩
  · simp [specMAE, validPairsQ, hV]
  · rw [if_neg (by simp)]
    simp only [specMAE, validPairsQ, hV, List.map_cons, List.isEmpty_cons,
      List.map_map, List.length_map, List.length_cons]
    rfl

set_option maxHeartbeats 1000000 in
theorem hmMaxErr_char (csv comp : List PyFloat)
    (hcsv : csv.all finiteOrNan = true) (hcomp : comp.all finiteOrNan = true) :
    hmMaxErr csv comp = match specMaxErr csv comp with
      | none => .nan
      | some q => .fin q := by
  rw [hmMaxErr, hmDiff, List.map_map, nanmax,
    hmSlice_map_filter csv comp (PyFloat.pabs ∘ fun p => p.2.sub p.1)
      (fun p hp => mae_term_nan p hp),
    List.filter_map, hmMAE_filter csv comp hcsv hcomp]
  rcases hV : validPairsHm csv comp with _ | ⟨h0, t0⟩
  · simp [specMaxErr, validPairsQ, hV]
  · have hmem0 : h0 ∈ validPairsHm csv comp := by
      rw [hV]; exact List.mem_cons_self _ _
    rcases validPair_fin csv comp hcsv hcomp h0
      (List.mem_filter.1 hmem0).1 (List.mem_filter.1 hmem0).2 with ⟨a, b, rfl⟩
    have hall : ∀ x ∈ (t0.map (PyFloat.pabs ∘ fun p => p.2.sub p.1)), ∃ q, x = .fin q := by
      intro x hx
      rcases List.mem_map.1 hx with ⟨p, hp, rfl⟩
      have hmem : p ∈ validPairsHm csv comp := by
        rw [hV]; exact List.mem_cons_of_mem _ hp
      rcases validPair_fin csv comp hcsv hcomp p
        (List.mem_filter.1 hmem).1 (List.mem_filter.1 hmem).2 with ⟨c, d, rfl⟩
      exact ⟨|d + -c|, rfl⟩
    rw [List.map_cons]
    show (t0.map (PyFloat.pabs ∘ fun p => p.2.sub p.1)).foldl pymax2
        (.fin |b + -a|) = _
    rw [foldl_pymax2_fin _ _ hall]
    have hqs : (t0.map (PyFloat.pabs ∘ fun p => p.2.sub p.1)).map PyFloat.toQ
        = t0.map (fun p => |p.2.toQ - p.1.toQ|) := by
      rw [List.map_map]
      apply List.map_congr_left
      intro p hp
      have hmem : p ∈ validPairsHm csv comp := by
        rw [hV]; exact List.mem_cons_of_mem _ hp
      rcases validPair_fin csv comp hcsv hcomp p
        (List.mem_filter.1 hmem).1 (List.mem_filter.1 hmem).2 with ⟨c, d, rfl⟩
      show |d + -c| = |(PyFloat.fin d).toQ - (PyFloat.fin c).toQ|
      rw [PyFloat.toQ, PyFloat.toQ, sub_eq_add_neg]
    rw [hqs]
    simp only [specMaxErr, validPairsQ, hV, List.map_cons]
    rw [List.foldl_map, List.foldl_map]
    have hinit : |b + -a| = |(PyFloat.fin b).toQ - (PyFloat.fin a).toQ| := by
      rw [PyFloat.toQ, PyFloat.toQ, sub_eq_add_neg]
    rw [hinit]

/-- Claim C2, counterexample: plot_hit_or_miss builds its mask with
`~np.isnan`, so a positive-infinite reference value is counted valid (here
position 0 enters valid_indices) even though it is not finite, refuting
"validity[i] is true iff both series hold a finite value at i". -/
theorem validity_mask_counterexample :
    hmValidIdxs [PyFloat.pinf] [PyFloat.fin 1] = [0] ∧
      PyFloat.pinf.isFinite = false :=
  ⟨rfl, rfl⟩

set_option maxHeartbeats 2000000 in
/-- Claim C2, amended: plot_cmma's mask is true iff both values are finite
and its MAE (and the value pairs handed to the correlation) range over
exactly the mask-true rows; plot_hit_or_miss's mask is true iff neither
value is NaN — an infinite value counts as valid there — and when every
value is finite or NaN (so the two mask notions coincide) its MAE and max
error equal the spec statistics over the jointly valid positions. -/
theorem validity_mask_amended (df : List (PyFloat × PyFloat))
    (csv comp : List PyFloat)
    (hcsv : csv.all finiteOrNan = true) (hcomp : comp.all finiteOrNan = true) :
    (dfValid df = df.filter (fun p => p.1.isFinite && p.2.isFinite)) ∧
    (cmmaCsvVals df = (dfValid df).map Prod.fst ∧
      cmmaComputedVals df = (dfValid df).map Prod.snd) ∧
    (cmmaMAE df = if (dfValid df).isEmpty then .nan
      else .fin (((dfValid df).map (fun p => |p.2.toQ - p.1.toQ|)).sum
        / (dfValid df).length)) ∧
    (∀ j, j < (hmPairs csv comp).length →
      validPairHm ((hmPairs csv comp).getD j (.nan, .nan))
        = (((hmPairs csv comp).getD j (.nan, .nan)).1.isFinite &&
            ((hmPairs csv comp).getD j (.nan, .nan)).2.isFinite)) ∧
    (hmMAE csv comp = match specMAE csv comp with
      | none => .nan
      | some q => .fin q) ∧
    (hmMaxErr csv comp = match specMaxErr csv comp with
      | none => .nan
      | some q => .fin q) := by
  refine ⟨rfl, ⟨rfl, rfl⟩, ?_, ?_, hmMAE_char csv comp hcsv hcomp,
    hmMaxErr_char csv comp hcsv hcomp⟩
  · have hfg : ∀ p ∈ dfValid df,
        (PyFloat.pabs ∘ fun p => p.2.sub p.1) p
          = PyFloat.fin (|p.2.toQ - p.1.toQ|) := by
      intro p hp
      have hv := (List.mem_filter.1 hp).2
      unfold validPairCmma at hv
      rcases (isFinite_iff_fin _).1 (Bool.and_elim_left hv) with ⟨a, ha⟩
      rcases (isFinite_iff_fin _).1 (Bool.and_elim_right hv) with ⟨b, hb⟩
      simp only [Function.comp_apply]
      rw [ha, hb]
      simp [PyFloat.sub, PyFloat.add, PyFloat.neg, PyFloat.pabs, PyFloat.toQ,
        sub_eq_add_neg]
    rw [cmmaMAE, cmmaDiffVals, List.map_map,
      pyMean_map_fin _ _ (fun p => |p.2.toQ - p.1.toQ|) hfg]
  · intro j hj
    have hmem : (hmPairs csv comp).getD j (.nan, .nan) ∈ hmPairs csv comp := by
      rw [List.getD_eq_getElem _ _ hj]
      exact List.getElem_mem hj
    generalize hgen : (hmPairs csv comp).getD j (.nan, .nan) = p at hmem ⊢
    rcases p with ⟨x, y⟩
    rcases List.of_mem_zip hmem with ⟨hx, hy⟩
    have hfx := List.all_eq_true.1 hcsv x hx
    have hfy := List.all_eq_true.1 hcomp y hy
    cases x <;> cases y <;>
      simp_all [validPairHm, finiteOrNan, PyFloat.isNan, PyFloat.isFinite]

set_option maxHeartbeats 2000000 in
/-- Claim C2 amended, witness: the single rows (1, 3) are valid on both
sides; the cmma MAE is the masked-mean 2 and the hit-or-miss statistics
match the spec formulas. -/
theorem validity_mask_amended_witness :
    (dfValid [((PyFloat.fin 1 : PyFloat), (PyFloat.fin 3 : PyFloat))]
        = [((PyFloat.fin 1 : PyFloat), (PyFloat.fin 3 : PyFloat))].filter
            (fun p => p.1.isFinite && p.2.isFinite)) ∧
    (cmmaCsvVals [((PyFloat.fin 1 : PyFloat), (PyFloat.fin 3 : PyFloat))]
        = (dfValid [((PyFloat.fin 1 : PyFloat), (PyFloat.fin 3 : PyFloat))]).map Prod.fst ∧
      cmmaComputedVals [((PyFloat.fin 1 : PyFloat), (PyFloat.fin 3 : PyFloat))]
        = (dfValid [((PyFloat.fin 1 : PyFloat), (PyFloat.fin 3 : PyFloat))]).map Prod.snd) ∧
    (cmmaMAE [((PyFloat.fin 1 : PyFloat), (PyFloat.fin 3 : PyFloat))]
      = if (dfValid [((PyFloat.fin 1 : PyFloat), (PyFloat.fin 3 : PyFloat))]).isEmpty
        then .nan
        else .fin (((dfValid [((PyFloat.fin 1 : PyFloat), (PyFloat.fin 3 : PyFloat))]).map
              (fun p => |p.2.toQ - p.1.toQ|)).sum
          / (dfValid [((PyFloat.fin 1 : PyFloat), (PyFloat.fin 3 : PyFloat))]).length)) ∧
    (∀ j, j < (hmPairs [PyFloat.fin 1] [PyFloat.fin 3]).length →
      validPairHm ((hmPairs [PyFloat.fin 1] [PyFloat.fin 3]).getD j (.nan, .nan))
        = (((hmPairs [PyFloat.fin 1] [PyFloat.fin 3]).getD j (.nan, .nan)).1.isFinite &&
            ((hmPairs [PyFloat.fin 1] [PyFloat.fin 3]).getD j (.nan, .nan)).2.isFinite)) ∧
    (hmMAE [PyFloat.fin 1] [PyFloat.fin 3]
      = match specMAE [PyFloat.fin 1] [PyFloat.fin 3] with
        | none => .nan
        | some q => .fin q) ∧
    (hmMaxErr [PyFloat.fin 1] [PyFloat.fin 3]
      = match specMaxErr [PyFloat.fin 1] [PyFloat.fin 3] with
        | none => .nan
        | some q => .fin q) :=
  validity_mask_amended [((PyFloat.fin 1 : PyFloat), (PyFloat.fin 3 : PyFloat))]
    [PyFloat.fin 1] [PyFloat.fin 3] (by decide) (by decide)

set_option maxHeartbeats 2000000 in
theorem hmMRE_filter (csv comp : List PyFloat)
    (hcsv : csv.all finiteOrNan = true) (hcomp : comp.all finiteOrNan = true) :
    (hmPairs csv comp).filter
        ((fun x => !x.isNan) ∘ (PyFloat.pabs ∘ fun p => (p.2.sub p.1).div p.1))
      = (validPairsHm csv comp).filter
          (fun p => !(p.1 == PyFloat.fin 0 && p.2 == PyFloat.fin 0)) := by
  rw [validPairsHm, List.filter_filter]
  apply List.filter_congr
  intro p hp
  rcases Bool.eq_false_or_eq_true (validPairHm p) with hv | hv
  · rcases validPair_fin csv comp hcsv hcomp p hp hv with ⟨a, b, rfl⟩
    rw [hv]
    by_cases ha : a = 0
    · subst ha
      by_cases hb : b = 0
      · subst hb
        simp [Function.comp, PyFloat.sub, PyFloat.add, PyFloat.neg, PyFloat.div,
          PyFloat.pabs, PyFloat.isNan]
      · have hnum : b + -(0 : ℚ) ≠ 0 := by simpa using hb
        simp only [Function.comp_apply, PyFloat.sub, PyFloat.add, PyFloat.neg,
          PyFloat.div, if_pos rfl, if_true, if_neg hnum]
        have hrhs : (!(PyFloat.fin (0 : ℚ) == PyFloat.fin 0
            && PyFloat.fin b == PyFloat.fin 0) && true) = true := by
          simp [hb]
        rw [hrhs]
        split <;> rfl
    · simp [Function.comp, PyFloat.sub, PyFloat.add, PyFloat.neg, PyFloat.div,
        ha, PyFloat.pabs, PyFloat.isNan]
  · rw [hv]
    have hnan := mre_term_nan p hv
    simp only [Function.comp_apply]
    rw [hnan]
    simp

set_option maxHeartbeats 2000000 in
/-- Claim C4, amended: the reported mean relative error is
100 × mean of |difference/reference| over the positions in the valid range
whose quotient is not NaN: valid positions with nonzero reference
contribute as the claim says, valid positions where reference and computed
are both zero are excluded (their quotient is 0/0 = NaN), but a valid
position with zero reference and nonzero computed contributes an infinite
term, so the statistic comes out +infinity instead of excluding that
position. -/
theorem mre_amended (csv comp : List PyFloat)
    (hcsv : csv.all finiteOrNan = true) (hcomp : comp.all finiteOrNan = true) :
    hmMRE csv comp =
      if (validPairsHm csv comp).any
          (fun p => p.1 == PyFloat.fin 0 && !(p.2 == PyFloat.fin 0))
      then PyFloat.pinf
      else match specMRE csv comp with
        | none => .nan
        | some q => .fin q := by
  have hzip : List.zipWith PyFloat.div (hmDiff csv comp)
      ((hmSlice csv comp).map Prod.fst)
      = (hmSlice csv comp).map (fun p => (p.2.sub p.1).div p.1) := by
    rw [hmDiff, List.zipWith_map, List.zipWith_same]
  rw [hmMRE, hzip, List.map_map, nanmean,
    hmSlice_map_filter csv comp (PyFloat.pabs ∘ fun p => (p.2.sub p.1).div p.1)
      (fun p hp => mre_term_nan p hp),
    List.filter_map, hmMRE_filter csv comp hcsv hcomp]
  by_cases hany : (validPairsHm csv comp).any
      (fun p => p.1 == PyFloat.fin 0 && !(p.2 == PyFloat.fin 0)) = true
  · rw [if_pos hany]
    rcases List.any_eq_true.1 hany with ⟨p0, hp0, hpred⟩
    rcases validPair_fin csv comp hcsv hcomp p0 (List.mem_filter.1 hp0).1
      (List.mem_filter.1 hp0).2 with ⟨a, b, rfl⟩
    have ha0 : a = 0 := by simpa using Bool.and_elim_left hpred
    have hb0 : b ≠ 0 := by simpa using Bool.and_elim_right hpred
    subst ha0
    have hmemG : (PyFloat.fin 0, PyFloat.fin b) ∈ (validPairsHm csv comp).filter
        (fun p => !(p.1 == PyFloat.fin 0 && p.2 == PyFloat.fin 0)) :=
      List.mem_filter.2 ⟨hp0, by simp [hb0]⟩
    have hallG : ∀ x ∈ ((validPairsHm csv comp).filter
          (fun p => !(p.1 == PyFloat.fin 0 && p.2 == PyFloat.fin 0))).map
          (PyFloat.pabs ∘ fun p => (p.2.sub p.1).div p.1),
        (∃ q, x = .fin q) ∨ x = .pinf := by
      intro x hx
      rcases List.mem_map.1 hx with ⟨p, hmp, rfl⟩
      have hpv : p ∈ validPairsHm csv comp := (List.mem_filter.1 hmp).1
      have hpg := (List.mem_filter.1 hmp).2
      rcases validPair_fin csv comp hcsv hcomp p (List.mem_filter.1 hpv).1
        (List.mem_filter.1 hpv).2 with ⟨c, d, rfl⟩
      by_cases hc : c = 0
      · subst hc
        have hd : d ≠ 0 := by
          intro hd0
          subst hd0
          simp at hpg
        right
        have hnum : d + -(0 : ℚ) ≠ 0 := by simpa using hd
        simp only [Function.comp_apply, PyFloat.sub, PyFloat.add, PyFloat.neg,
          PyFloat.div, if_pos rfl, if_true, if_neg hnum]
        split <;> rfl
      · left
        refine ⟨|(d + -c) / c|, ?_⟩
        simp [Function.comp, PyFloat.sub, PyFloat.add, PyFloat.neg,
          PyFloat.div, hc, PyFloat.pabs]
    have hexG : ∃ x ∈ ((validPairsHm csv comp).filter
          (fun p => !(p.1 == PyFloat.fin 0 && p.2 == PyFloat.fin 0))).map
          (PyFloat.pabs ∘ fun p => (p.2.sub p.1).div p.1), x = .pinf := by
      refine ⟨_, List.mem_map_of_mem _ hmemG, ?_⟩
      have hnum : b + -(0 : ℚ) ≠ 0 := by simpa using hb0
      simp only [Function.comp_apply, PyFloat.sub, PyFloat.add, PyFloat.neg,
        PyFloat.div, if_pos rfl, if_true, if_neg hnum]
      split <;> rfl
    have hsum := pySum_pinf _ hallG hexG
    have hne : (((validPairsHm csv comp).filter
        (fun p => !(p.1 == PyFloat.fin 0 && p.2 == PyFloat.fin 0))).map
        (PyFloat.pabs ∘ fun p => (p.2.sub p.1).div p.1)).isEmpty = false := by
      rcases hGm : ((validPairsHm csv comp).filter
          (fun p => !(p.1 == PyFloat.fin 0 && p.2 == PyFloat.fin 0))).map
          (PyFloat.pabs ∘ fun p => (p.2.sub p.1).div p.1) with _ | ⟨x0, xs⟩
      · exact absurd (hGm ▸ List.mem_map_of_mem _ hmemG) (List.not_mem_nil _)
      · rw [hGm]
        rfl
    rw [pyMean, if_neg (by rw [hne]; exact Bool.false_ne_true), hsum]
    show (PyFloat.pinf.div _).mul100 = _
    rw [PyFloat.div]
    rw [if_neg (not_lt.2 (by positivity))]
    rfl
  · rw [if_neg hany]
    have hnotrig : ∀ p ∈ validPairsHm csv comp,
        ¬(p.1 == PyFloat.fin 0 && !(p.2 == PyFloat.fin 0)) = true := by
      intro p hp hc
      exact hany (List.any_eq_true.2 ⟨p, hp, hc⟩)
    have hGeq : (validPairsHm csv comp).filter
        (fun p => !(p.1 == PyFloat.fin 0 && p.2 == PyFloat.fin 0))
        = (validPairsHm csv comp).filter (fun p => !(p.1 == PyFloat.fin 0)) := by
      apply List.filter_congr
      intro p hp
      by_cases h1 : (p.1 == PyFloat.fin 0) = true
      · have h2 : (p.2 == PyFloat.fin 0) = true := by
          rcases Bool.eq_false_or_eq_true (p.2 == PyFloat.fin 0) with h2 | h2
          · exact h2
          · exact absurd (by rw [h1, h2]; rfl) (hnotrig p hp)
        rw [h1, h2]
        rfl
      · rw [Bool.eq_false_iff.2 h1]
        rfl
    rw [hGeq]
    have hfg : ∀ p ∈ (validPairsHm csv comp).filter
        (fun p => !(p.1 == PyFloat.fin 0)),
        (PyFloat.pabs ∘ fun p => (p.2.sub p.1).div p.1) p
          = PyFloat.fin (|(p.2.toQ - p.1.toQ) / p.1.toQ|) := by
      intro p hp
      have hpv := (List.mem_filter.1 hp).1
      have hp1 := (List.mem_filter.1 hp).2
      rcases validPair_fin csv comp hcsv hcomp p (List.mem_filter.1 hpv).1
        (List.mem_filter.1 hpv).2 with ⟨c, d, rfl⟩
      have hc : c ≠ 0 := by simpa using hp1
      simp [Function.comp, PyFloat.sub, PyFloat.add, PyFloat.neg, PyFloat.div,
        hc, PyFloat.pabs, PyFloat.toQ, sub_eq_add_neg]
    rw [pyMean_map_fin _ _ _ hfg]
    have hS : (validPairsQ csv comp).filter (fun p => decide (p.1 ≠ 0))
        = ((validPairsHm csv comp).filter (fun p => !(p.1 == PyFloat.fin 0))).map
            (fun p => (p.1.toQ, p.2.toQ)) := by
      rw [validPairsQ, List.filter_map]
      congr 1
      apply List.filter_congr
      intro p hp
      rcases validPair_fin csv comp hcsv hcomp p (List.mem_filter.1 hp).1
        (List.mem_filter.1 hp).2 with ⟨c, d, rfl⟩
      show decide (((PyFloat.fin c).toQ, (PyFloat.fin d).toQ).1 ≠ 0)
        = !(PyFloat.fin c == PyFloat.fin 0)
      by_cases hc : c = 0 <;> simp [PyFloat.toQ, hc]
    by_cases hE : ((validPairsHm csv comp).filter
        (fun p => !(p.1 == PyFloat.fin 0))).isEmpty = true
    · rw [if_pos hE]
      have hSnil : (validPairsQ csv comp).filter (fun p => decide (p.1 ≠ 0)) = [] := by
        rw [hS, List.isEmpty_iff.1 hE]
        rfl
      simp only [specMRE, hSnil, List.isEmpty_nil]
      rfl
    · rw [if_neg hE]
      have hSne : ((validPairsQ csv comp).filter
          (fun p => decide (p.1 ≠ 0))).isEmpty = false := by
        rw [hS]
        rcases hGm : (validPairsHm csv comp).filter
            (fun p => !(p.1 == PyFloat.fin 0)) with _ | ⟨g0, gs⟩
        · rw [hGm] at hE
          exact absurd rfl hE
        · rw [hGm]
          rfl
      simp only [specMRE]
      rw [if_neg (by rw [hSne]; exact Bool.false_ne_true)]
      rw [hS, List.map_map, List.length_map]
      rfl

/-- Claim C4, counterexample: series csv = [1, 0], computed = [1, 1].  Both
positions are valid; the claim's formula averages only over the nonzero
reference position, giving 0 %, but the code's quotient at the zero
reference position is 1/0 = +inf, so `np.nanmean` includes it and the
reported mean relative error is +infinity, not 0. -/
theorem mre_counterexample :
    hmMRE [PyFloat.fin 1, PyFloat.fin 0] [PyFloat.fin 1, PyFloat.fin 1]
        = PyFloat.pinf ∧
      specMRE [PyFloat.fin 1, PyFloat.fin 0] [PyFloat.fin 1, PyFloat.fin 1]
        = some 0 := by
  constructor
  · norm_num [hmMRE, hmDiff, hmSlice, hmValidIdxs, hmPairs, validPairHm,
      nanmean, pyMean, pySum, PyFloat.sub, PyFloat.add, PyFloat.neg,
      PyFloat.div, PyFloat.pabs, PyFloat.isNan, PyFloat.mul100, List.filter,
      List.range, List.range.loop, List.getLast]
  · norm_num [specMRE, validPairsQ, validPairsHm, hmPairs, validPairHm,
      PyFloat.toQ, PyFloat.isNan, List.filter]

/-- Claim C4 amended, witness: on csv = [2, 0], computed = [3, 0] the
trigger position (zero reference, nonzero computed) is absent, so the
statistic equals the spec formula over the nonzero-reference positions. -/
theorem mre_amended_witness :
    hmMRE [PyFloat.fin 2, PyFloat.fin 0] [PyFloat.fin 3, PyFloat.fin 0] =
      if (validPairsHm [PyFloat.fin 2, PyFloat.fin 0]
            [PyFloat.fin 3, PyFloat.fin 0]).any
          (fun p => p.1 == PyFloat.fin 0 && !(p.2 == PyFloat.fin 0))
      then PyFloat.pinf
      else match specMRE [PyFloat.fin 2, PyFloat.fin 0]
          [PyFloat.fin 3, PyFloat.fin 0] with
        | none => .nan
        | some q => .fin q :=
  mre_amended [PyFloat.fin 2, PyFloat.fin 0] [PyFloat.fin 3, PyFloat.fin 0]
    (by decide) (by decide)
